import Mathlib

/-!
Verification development for the trademark conflict-scoring and
classification engine of the `trademark_application` repository.

The Python sources are shallowly embedded into Lean:

* Python strings are Lean `String`s (lists of characters); the regex
  character classes `\w`, `\s`, `\d` are modelled over their ASCII
  fragment (`isWordChar`, `isSpaceChar`, `Char.isDigit`), as is
  `str.lower()` (`lowerChar`).
* The external collaborators of the engine (sentence-embedding cosine
  similarity, fuzzywuzzy / rapidfuzz string-similarity ratios, the
  Metaphone phonetic encoder, the WordNet lemmatizer, the LLM oracle)
  are modelled as explicit function-valued parameters, bundled in
  `Collab`.  Real-valued scores are modelled as `ℚ`, integer-valued
  fuzzywuzzy ratios as `Nat`.
* Python exceptions are modelled by `Option`: a function that can raise
  returns `none` where the Python code would propagate an exception.
-/

/-- ASCII fragment of Python's whitespace class `\s` (and of the default
`str.split()` / `str.strip()` separators). -/
def isSpaceChar (c : Char) : Bool :=
  c = ' ' || c = '\t' || c = '\n' || c = '\x0d' || c = '\x0b' || c = '\x0c'

/-- ASCII fragment of Python's regex word class `\w`: alphanumerics and
underscore. -/
def isWordChar (c : Char) : Bool :=
  c.isAlphanum || c = '_'

/-- Model of Python `str.lower()` on a single character (ASCII fragment):
uppercase ASCII letters are shifted by 32, everything else is kept. -/
def lowerChar (c : Char) : Char :=
  if 65 ≤ c.toNat ∧ c.toNat ≤ 90 then Char.ofNat (c.toNat + 32) else c

/-- Model of Python `str.lower()`. -/
def pyLower (s : String) : String :=
  String.mk (s.toList.map lowerChar)

/-- Model of Python `str.strip()`: drop leading and trailing whitespace. -/
def pyStrip (s : String) : String :=
  String.mk (((s.toList.dropWhile isSpaceChar).reverse.dropWhile isSpaceChar).reverse)

/-- `listStartsWith pat l` is true when `pat` is a prefix of `l`. -/
def listStartsWith : List Char → List Char → Bool
  | [], _ => true
  | _ :: _, [] => false
  | p :: ps, c :: cs => p = c && listStartsWith ps cs

/-- `listIsSubstring pat l` is true when `pat` occurs contiguously in `l`. -/
def listIsSubstring (pat : List Char) : List Char → Bool
  | [] => listStartsWith pat []
  | c :: cs => listStartsWith pat (c :: cs) || listIsSubstring pat cs

/-- Model of the Python membership test `pat in s` on strings. -/
def pyContains (s pat : String) : Bool :=
  listIsSubstring pat.toList s.toList

/-- Auxiliary for `pySplitChars`: model of Python `str.split()` with no
separator (split on whitespace runs, dropping empty tokens).  `acc` holds
the reversed characters of the token currently being accumulated. -/
def pySplitCharsAux : List Char → List Char → List (List Char)
  | acc, [] => if acc = [] then [] else [acc.reverse]
  | acc, c :: cs =>
    if isSpaceChar c then
      if acc = [] then pySplitCharsAux [] cs else acc.reverse :: pySplitCharsAux [] cs
    else
      pySplitCharsAux (c :: acc) cs

/-- Model of Python `str.split()` at the character-list level. -/
def pySplitChars (l : List Char) : List (List Char) :=
  pySplitCharsAux [] l

/-- Model of Python `str.split()`, producing strings. -/
def pySplit (s : String) : List String :=
  (pySplitChars s.toList).map String.mk

/-- Model of Python `s.split(",")` at the character-list level: split at
every comma, keeping empty tokens (so `""` yields `[""]`, as in
Python). -/
def splitCommaAux : List Char → List Char → List (List Char)
  | acc, [] => [acc.reverse]
  | acc, c :: cs =>
    if c = ',' then acc.reverse :: splitCommaAux [] cs else splitCommaAux (c :: acc) cs

/-- Model of Python `s.split(",")`. -/
def pySplitComma (s : String) : List String :=
  (splitCommaAux [] s.toList).map String.mk

/-- Model of `" ".join(tokens)` at the character-list level. -/
def joinSpace : List (List Char) → List Char
  | [] => []
  | [t] => t
  | t :: ts => t ++ ' ' :: joinSpace ts

/-- Auxiliary for `mapWordRuns`.  A Python regex substitution of the form
`re.sub(r"\b<word>\b", repl, text)` (for `<word>` made of word characters)
rewrites exactly the maximal runs of `\w`-characters of `text`.  This
function traverses the text, applying `f` to every maximal word run
(`acc` holds the reversed characters of the current run; empty runs
between consecutive non-word characters are passed to `f` as `[]`). -/
def mapWordRunsAux (f : List Char → List Char) : List Char → List Char → List Char
  | acc, [] => f acc.reverse
  | acc, c :: cs =>
    if isWordChar c then mapWordRunsAux f (c :: acc) cs
    else f acc.reverse ++ c :: mapWordRunsAux f [] cs

/-- Apply `f` to every maximal word run of `l`, keeping all non-word
characters in place. -/
def mapWordRuns (f : List Char → List Char) (l : List Char) : List Char :=
  mapWordRunsAux f [] l

/-- The maximal word runs of `l`, in order (empty runs included, one
between every two adjacent non-word characters). -/
def wordRunsAux : List Char → List Char → List (List Char)
  | acc, [] => [acc.reverse]
  | acc, c :: cs =>
    if isWordChar c then wordRunsAux (c :: acc) cs
    else acc.reverse :: wordRunsAux [] cs

/-- The maximal word runs of a character list. -/
def wordRuns (l : List Char) : List (List Char) :=
  wordRunsAux [] l

/-- `re.sub(r"\b\d+\b", "", text)` on one word run: a maximal word run
consisting entirely of digits (and nonempty) is deleted. -/
def dropDigitRun (r : List Char) : List Char :=
  if r ≠ [] ∧ r.all Char.isDigit then [] else r

/-- `re.sub(r"\b" + word + r"\b", "", text)` on one word run: a maximal
word run equal to `word` is deleted. -/
def dropWordRun (w : List Char) (r : List Char) : List Char :=
  if r = w then [] else r

/-- `re.sub(r"\bshampoos\b", "hair", text)` on one word run. -/
def replaceShampoosRun (r : List Char) : List Char :=
  if r = "shampoos".toList then "hair".toList else r

/-- The stop-word list of `text_processing.normalize_text`
(`words_to_remove` in the source). -/
def words_to_remove : List String :=
  ["class", "care", "in", "and", "the", "for", "with", "from", "to",
   "under", "using", "of", "no", "include", "ex", "example", "classes",
   "search", "scope", "shower", "products", "shampoos"]

/-- `re.sub(r"[−–—]", "-", text)` on one character: fold the minus sign,
en dash and em dash to an ASCII hyphen. -/
def foldHyphenChar (c : Char) : Char :=
  if c = '−' || c = '–' || c = '—' then '-' else c

/-- `re.sub(r"[^\w\s-]", " ", text)` on one character: punctuation other
than hyphens becomes a space. -/
def punctToSpaceChar (c : Char) : Char :=
  if !(isWordChar c || isSpaceChar c || c = '-') then ' ' else c

/-- Character-list core of `text_processing.normalize_text`, following
the source's substitution passes in order: fold hyphen variants, strip
punctuation, lowercase, drop standalone numbers, drop the stop words,
replace `shampoos` (dead by that point: `shampoos` is itself a stop
word), and collapse whitespace via `" ".join(text.split())`. -/
def normalizeChars (l : List Char) : List Char :=
  let t1 := l.map foldHyphenChar
  let t2 := t1.map punctToSpaceChar
  let t3 := t2.map lowerChar
  let t4 := mapWordRuns dropDigitRun t3
  let t5 := words_to_remove.foldl (fun t w => mapWordRuns (dropWordRun w.toList) t) t4
  let t6 := mapWordRuns replaceShampoosRun t5
  joinSpace (pySplitChars t6)

/-- `text_processing.normalize_text`: canonicalize text for comparison. -/
def normalize_text (s : String) : String :=
  String.mk (normalizeChars s.toList)

/-- `normalize_text_name` (defined in `text_processing` and again inside
`assess_conflict`): replace the right single quotation mark by a space,
lowercase, and collapse whitespace. -/
def normalize_text_name (s : String) : String :=
  let t := s.toList.map (fun c => if c = '’' then ' ' else c)
  let t := t.map lowerChar
  String.mk (joinSpace (pySplitChars t))

/-- Inner loop of `text_processing.levenshtein_distance`: one step of the
dynamic-programming row update.  `prev` is the previous row (starting at
column `j`), `prevCur` the entry of the current row at column `j`; the
result is the current row from column `j+1` on. -/
def levInner (c1 : Char) : List Char → List Nat → Nat → List Nat
  | [], _, _ => []
  | c2 :: bs, p0 :: p1 :: ps, prevCur =>
    let insertions := p1 + 1
    let deletions := prevCur + 1
    let substitutions := p0 + (if c1 ≠ c2 then 1 else 0)
    let v := min insertions (min deletions substitutions)
    v :: levInner c1 bs (p1 :: ps) v
  | _ :: _, _, _ => []

/-- Outer loop of `text_processing.levenshtein_distance` over the
characters of `a` (with their index `i`), carrying the previous row. -/
def levRowsLoop (b : List Char) : List Char → Nat → List Nat → List Nat
  | [], _, prev => prev
  | c1 :: as, i, prev => levRowsLoop b as (i + 1) ((i + 1) :: levInner c1 b prev (i + 1))

/-- Row-based core of `text_processing.levenshtein_distance`, for
`a.length ≥ b.length` (the source swaps the arguments first). -/
def levCore (a b : List Char) : Nat :=
  if b.length = 0 then a.length
  else (levRowsLoop b a 0 (List.range (b.length + 1))).getLastD 0

/-- `text_processing.levenshtein_distance`.  The source's self-call after
swapping the shorter string to the second position is unfolded into the
explicit swap here (the recursive call immediately takes the non-swap
path, since after the swap the first string is strictly longer). -/
def levenshtein_distance (a b : String) : Nat :=
  if a.length < b.length then levCore b.toList a.toList else levCore a.toList b.toList

/-- Numeric value of a list of ASCII digits. -/
def digitsToNat (ds : List Char) : Nat :=
  ds.foldl (fun n c => 10 * n + (c.toNat - 48)) 0

/-- Model of Python `int(s)` on an already-stripped string: an optional
sign followed by one or more ASCII digits; anything else raises
(`none`).  (Digit-group underscores are not modelled.) -/
def pyInt? (s : String) : Option Int :=
  match s.toList with
  | [] => none
  | '-' :: ds => if ds ≠ [] ∧ ds.all Char.isDigit then some (-(digitsToNat ds : Int)) else none
  | '+' :: ds => if ds ≠ [] ∧ ds.all Char.isDigit then some (digitsToNat ds : Int) else none
  | ds => if ds.all Char.isDigit then some (digitsToNat ds : Int) else none

/-- The proposed-class parsing done inline by `compare_trademarks`
(line 26): `[int(c.strip()) for c in proposed_class.split(",")]`.
A token that `int()` cannot parse raises `ValueError`, modelled by
`none`. -/
def parsePyIntList (s : String) : Option (List Int) :=
  (pySplitComma s).mapM (fun c => pyInt? (pyStrip c))

/-- `text_processing.parse_international_class_numbers`: strip every
character other than digits and commas, split on commas, keep the
nonempty tokens and convert them to integers; any exception yields `[]`
(the `try`/`except` wrapper). -/
def parse_international_class_numbers (s : String) : List Int :=
  let cleaned := String.mk (s.toList.filter (fun c => c.isDigit || c = ','))
  match ((pySplitComma cleaned).filter (fun num => pyStrip num ≠ "")).mapM
      (fun num => pyInt? (pyStrip num)) with
  | some l => l
  | none => []

/-- Model of Python's built-in `round` on rationals (round half to even),
as used in the reasoning strings of `assess_conflict`. -/
def pyRound (q : ℚ) : Int :=
  let f := ⌊q⌋
  let r := q - f
  if r < mkRat 1 2 then f
  else if mkRat 1 2 < r then f + 1
  else if f % 2 = 0 then f else f + 1

/-- The conflict grades of the engine, as a closed enum.  The source
stores them as strings; `gradeLabel` gives the exact source strings
(note the source spells the cross-class grade `"Name-Match"`). -/
inductive ConflictGrade where
  | none
  | low
  | moderate
  | high
  | nameMatch
deriving DecidableEq, Repr

/-- The string the source stores for each conflict grade. -/
def gradeLabel : ConflictGrade → String
  | .none => "None"
  | .low => "Low"
  | .moderate => "Moderate"
  | .high => "High"
  | .nameMatch => "Name-Match"

/-- An existing (candidate) trademark record, as consumed by
`compare_trademarks` / `assess_conflict` (the dict keys of the source). -/
structure ExistingTrademark where
  trademark_name : String
  status : String
  owner : String
  international_class_number : List Int
  serial_number : String
  registration_number : String
  goods_services : String
  design_phrase : String
deriving DecidableEq, Repr

/-- The engine's external collaborators (spec §6), as explicit
functions: sentence-embedding cosine similarity, the integer-valued
fuzzywuzzy `fuzz.ratio` / `fuzz.partial_ratio` (named `fwPartRatio`
here), the float-valued rapidfuzz `fuzz.ratio`, the Metaphone encoder,
and the WordNet lemmatizer. -/
structure Collab where
  cosSim : String → String → ℚ
  fwRatio : String → String → Nat
  fwPartRatio : String → String → Nat
  rfRatio : String → String → ℚ
  metaphone : String → String
  lemmatize : String → String

/-- `config.settings.SEMANTIC_SIMILARITY_THRESHOLD` (0.84). -/
def SEMANTIC_SIMILARITY_THRESHOLD : ℚ := mkRat 84 100

/-- `config.settings.PHONETIC_SIMILARITY_THRESHOLD` (84). -/
def PHONETIC_SIMILARITY_THRESHOLD : Nat := 84

/-- `ml_utils.is_semantically_equivalent` (at its default threshold):
embedding cosine similarity of the two names meets the threshold. -/
def is_semantically_equivalent (c : Collab) (name1 name2 : String) : Bool :=
  decide (SEMANTIC_SIMILARITY_THRESHOLD ≤ c.cosSim name1 name2)

/-- `ml_utils.is_phonetically_equivalent` (at its default threshold):
fuzzywuzzy ratio of the lowercased names meets the threshold. -/
def is_phonetically_equivalent (c : Collab) (name1 name2 : String) : Bool :=
  PHONETIC_SIMILARITY_THRESHOLD ≤ c.fwRatio (pyLower name1) (pyLower name2)

/-- `ml_utils.first_words_phonetically_equivalent`: both names must have
at least two whitespace tokens, and the fuzzywuzzy ratio of the joined
first two tokens must meet the threshold. -/
def first_words_phonetically_equivalent (c : Collab) (existing_name proposed_name : String) : Bool :=
  let existing_words := pySplit (pyLower existing_name)
  let proposed_words := pySplit (pyLower proposed_name)
  if existing_words.length < 2 ∨ proposed_words.length < 2 then false
  else
    PHONETIC_SIMILARITY_THRESHOLD ≤
      c.fwRatio (String.intercalate " " (existing_words.take 2))
        (String.intercalate " " (proposed_words.take 2))

/-- Condition 1A of `compare_trademarks`: exact character-for-character
match after stripping and lowercasing. -/
def condition_1A (existing : ExistingTrademark) (proposed_name : String) : Bool :=
  pyLower (pyStrip existing.trademark_name) == pyLower (pyStrip proposed_name)

/-- Condition 1B of `compare_trademarks`: semantic equivalence. -/
def condition_1B (c : Collab) (existing : ExistingTrademark) (proposed_name : String) : Bool :=
  is_semantically_equivalent c existing.trademark_name proposed_name

/-- Condition 1C of `compare_trademarks`: phonetic equivalence. -/
def condition_1C (c : Collab) (existing : ExistingTrademark) (proposed_name : String) : Bool :=
  is_phonetically_equivalent c existing.trademark_name proposed_name

/-- Condition 1D of `compare_trademarks`: the first two words are
phonetically equivalent. -/
def condition_1D (c : Collab) (existing : ExistingTrademark) (proposed_name : String) : Bool :=
  first_words_phonetically_equivalent c existing.trademark_name proposed_name

/-- Condition 1E of `compare_trademarks`:
`existing_trademark["trademark_name"].lower().startswith(proposed_name.lower())`. -/
def condition_1E (existing : ExistingTrademark) (proposed_name : String) : Bool :=
  listStartsWith (pyLower proposed_name).toList (pyLower existing.trademark_name).toList

/-- Condition 1 of `compare_trademarks`: any of the five name signals. -/
def condition_1 (c : Collab) (existing : ExistingTrademark) (proposed_name : String) : Bool :=
  condition_1A existing proposed_name || condition_1B c existing proposed_name ||
    condition_1C c existing proposed_name || condition_1D c existing proposed_name ||
    condition_1E existing proposed_name

/-- Condition 2 of `compare_trademarks`: the candidate's class set and
the parsed proposed classes intersect. -/
def condition_2 (existing : ExistingTrademark) (proposed_classes : List Int) : Bool :=
  existing.international_class_number.any (fun k => proposed_classes.contains k)

/-- `target_market_and_goods_overlap` (nested in `compare_trademarks`,
default threshold 0.65): semantic similarity of the normalized
goods/services descriptions, with a lemmatized shared-word fallback. -/
def target_market_and_goods_overlap (c : Collab) (existing_gs proposed_gs : String) : Bool :=
  let existing_normalized := normalize_text existing_gs
  let proposed_normalized := normalize_text proposed_gs
  if mkRat 65 100 ≤ c.cosSim existing_normalized proposed_normalized then true
  else
    let existing_words := (pySplit existing_normalized).map c.lemmatize
    let proposed_words := (pySplit proposed_normalized).map c.lemmatize
    existing_words.any (fun w => proposed_words.contains w)

/-- Condition 3 of `compare_trademarks`: goods/services overlap. -/
def condition_3 (c : Collab) (existing : ExistingTrademark) (proposed_goods_services : String) : Bool :=
  target_market_and_goods_overlap c existing.goods_services proposed_goods_services

/-- The status override shared by `compare_trademarks` (lines 104–107)
and `assess_conflict` (lines 315–318): the stripped, lowercased status
contains `"cancelled"`, `"abandoned"` or `"expired"`. -/
def statusIsDead (status : String) : Bool :=
  let s := pyLower (pyStrip status)
  pyContains s "cancelled" || pyContains s "abandoned" || pyContains s "expired"

/-- The reasoning string produced by the status override in both
`compare_trademarks` and `assess_conflict`. -/
def statusOverrideReasoning : String :=
  "The existing trademark status is 'Cancelled' or 'Abandoned.'"

/-- The result dict of `compare_trademarks` / `assess_conflict`
(the fields the engine computes; the echoed record fields are carried
through from the input record). -/
structure ConflictVerdict where
  name_class : String
  trademark_name : String
  trademark_status : String
  trademark_owner : String
  trademark_classes : List Int
  serial_number : String
  serial_registration : String
  registration_number : String
  design_phrase : String
  word_design : String
  conflict_grade : ConflictGrade
  reasoning : String
  mark_col : String
  class_col : String
  goods_col : String
  direct_col : String
deriving DecidableEq, Repr

/-- `comparison_service.compare_trademarks` (the class-overlapping
grader).  The inline `int()` parsing of the proposed-class string (line
26) raises on unparseable input, modelled by `none`; everything after it
follows the source line by line.  The four return branches differ only
in the checkmark columns. -/
def compare_trademarks (c : Collab) (existing : ExistingTrademark)
    (proposed_name proposed_class proposed_goods_services : String) : Option ConflictVerdict :=
  match parsePyIntList proposed_class with
  | Option.none => Option.none
  | some proposed_classes =>
    let condition_1A_satisfied := condition_1A existing proposed_name
    let condition_1B_satisfied := condition_1B c existing proposed_name
    let condition_1C_satisfied := condition_1C c existing proposed_name
    let condition_1D_satisfied := condition_1D c existing proposed_name
    let condition_1E_satisfied := condition_1E existing proposed_name
    let condition_1_satisfied := condition_1 c existing proposed_name
    let condition_2_satisfied := condition_2 existing proposed_classes
    let condition_3_satisfied := condition_3 c existing proposed_goods_services
    let status_dead := statusIsDead existing.status
    let conflict_grade : ConflictGrade :=
      if status_dead then .low
      else
        let points := (if condition_1_satisfied then 1 else 0) +
          (if condition_2_satisfied then 1 else 0) + (if condition_3_satisfied then 1 else 0)
        if points = 3 then .high
        else if points = 2 then .moderate
        else if points = 1 then .low
        else .none
    let reasoning : String :=
      if status_dead then statusOverrideReasoning
      else
        let condition_1_details : List String :=
          (if condition_1A_satisfied then ["Exact character-for-character match"] else []) ++
          (if condition_1B_satisfied then ["Semantically equivalent"] else []) ++
          (if condition_1C_satisfied then ["Phonetically equivalent"] else []) ++
          (if condition_1D_satisfied then ["First two or more words are phonetically equivalent"] else []) ++
          (if condition_1E_satisfied then ["Proposed name is the first word of the existing trademark"] else [])
        let condition_1_reasoning :=
          if condition_1_satisfied then
            "Condition 1: Satisfied - " ++ String.intercalate ", " condition_1_details ++ "."
          else "Condition 1: Not Satisfied."
        condition_1_reasoning ++ " \n" ++
          "Condition 2: " ++ (if condition_2_satisfied then "Satisfied" else "Not Satisfied") ++
          " - Overlap in class numbers.\n" ++
          "Condition 3: " ++ (if condition_3_satisfied then "Satisfied" else "Not Satisfied") ++
          " - Overlap in goods/services and target market."
    let design_label := if existing.design_phrase == "No Design phrase presented in document"
      then "Word" else "Design"
    let base : ConflictVerdict :=
      { name_class := existing.trademark_name ++ " , " ++ toString existing.international_class_number
        trademark_name := existing.trademark_name
        trademark_status := existing.status
        trademark_owner := existing.owner
        trademark_classes := existing.international_class_number
        serial_number := existing.serial_number
        serial_registration := existing.serial_number ++ " / " ++ existing.registration_number
        registration_number := existing.registration_number
        design_phrase := existing.design_phrase
        word_design := design_label
        conflict_grade := conflict_grade
        reasoning := reasoning
        mark_col := " ", class_col := " ", goods_col := " ", direct_col := " " }
    if condition_1_satisfied && condition_2_satisfied && condition_3_satisfied then
      some { base with mark_col := "   ✔️", class_col := "   ✔️", goods_col := "   ✔️" }
    else if condition_1_satisfied && condition_2_satisfied then
      some { base with mark_col := "   ✔️", class_col := "   ✔️", goods_col := "  " }
    else if condition_2_satisfied && condition_3_satisfied then
      some { base with mark_col := " ", class_col := "   ✔️", goods_col := "   ✔️" }
    else
      some { base with mark_col := " ", class_col := "   ✔️", goods_col := " " }

/-- `comparison_service.assess_conflict` (the cross-class name-match
detector).  Note the source bug kept faithfully here: the boolean
`phonetic_partial_match` is compared with `>= 55` in both the decision
logic and the reasoning text (Python treats the boolean as the integer
0 or 1, so that disjunct is always false). -/
def assess_conflict (c : Collab) (existing : ExistingTrademark)
    (proposed_name proposed_class proposed_goods_services : String) : ConflictVerdict :=
  let status_dead := statusIsDead existing.status
  let existing_trademark_name := normalize_text_name existing.trademark_name
  let proposed_name_n := normalize_text_name proposed_name
  let existing_phonetic := c.metaphone existing_trademark_name
  let proposed_phonetic := c.metaphone proposed_name_n
  let phonetic_match := existing_phonetic == proposed_phonetic
  let semantic_similarity := c.cosSim existing_trademark_name proposed_name_n
  let string_similarity := c.rfRatio existing_trademark_name proposed_name_n
  let substring_match :=
    pyContains (pyLower proposed_name_n) (pyLower existing_trademark_name) ||
      pyContains (pyLower existing_trademark_name) (pyLower proposed_name_n)
  let shared_word :=
    (pySplit (pyLower existing_trademark_name)).any
      (fun w => (pySplit (pyLower proposed_name_n)).contains w)
  let phonetic_part_match :=
    55 ≤ c.fwPartRatio (pyLower existing_trademark_name) (pyLower proposed_name_n)
  let ppm_as_int : Nat := if phonetic_part_match then 1 else 0
  let conflict_grade : ConflictGrade :=
    if status_dead then .low
    else if phonetic_match || substring_match || shared_word ||
        decide (mkRat 1 2 ≤ semantic_similarity) || decide ((55 : ℚ) ≤ string_similarity) ||
        decide (55 ≤ ppm_as_int) then .nameMatch
    else .low
  let semantic_scaled := semantic_similarity * 100
  let reasoning : String :=
    if status_dead then statusOverrideReasoning
    else
      "Condition 1: " ++ (if phonetic_match then "Satisfied" else "Not Satisfied") ++
        " - Phonetic match found.\n" ++
      "Condition 2: " ++ (if substring_match then "Satisfied" else "Not Satisfied") ++
        " - Substring match found.\n" ++
      "Condition 3: " ++ (if shared_word then "Satisfied" else "Not Satisfied") ++
        " - Substring match found.\n" ++
      "Condition 4: " ++ (if 55 ≤ ppm_as_int then "Satisfied" else "Not Satisfied") ++
        " - String similarity is (" ++ toString ppm_as_int ++ "%).\n" ++
      "Condition 5: " ++ (if (50 : ℚ) ≤ semantic_scaled then "Satisfied" else "Not Satisfied") ++
        " - Semantic similarity is (" ++ toString (pyRound semantic_scaled) ++ "%).\n" ++
      "Condition 6: " ++ (if (55 : ℚ) ≤ string_similarity then "Satisfied" else "Not Satisfied") ++
        " - String similarity is (" ++ toString (pyRound string_similarity) ++ "%).\n"
  let design_label := if existing.design_phrase == "No Design phrase presented in document"
    then "Word" else "Design"
  { name_class := existing.trademark_name ++ " , " ++ toString existing.international_class_number
    trademark_name := existing.trademark_name
    trademark_status := existing.status
    trademark_owner := existing.owner
    trademark_classes := existing.international_class_number
    serial_number := existing.serial_number
    serial_registration := existing.serial_number ++ " / " ++ existing.registration_number
    registration_number := existing.registration_number
    design_phrase := existing.design_phrase
    word_design := design_label
    conflict_grade := conflict_grade
    reasoning := reasoning
    mark_col := " ", class_col := " ", goods_col := " ", direct_col := "   ✔️" }

/-- The oracle-produced classification consumed by
`ml_utils.consistency_check`: three named buckets of entries.  Entries
are kept abstract (`α`); the auditor reads only the `"mark"` field,
supplied through a projection (see `consistency_check`). -/
structure Classification (α : Type) where
  identical_marks : List α
  one_two_letter_marks : List α
  similar_marks : List α

/-- The corrected bucket set produced by `ml_utils.consistency_check`. -/
structure CorrectedBuckets (α : Type) where
  identical_marks : List α
  one_letter_marks : List α
  two_letter_marks : List α
  similar_marks : List α

/-- One loop iteration of `ml_utils.consistency_check`: file `entry`
into the bucket selected by the Levenshtein distance between the
proposed mark and the entry's mark string (`getMark` models
`entry.get("mark", "")`). -/
def consistencyStep {α : Type} (getMark : α → String) (proposed_mark : String)
    (corr : CorrectedBuckets α) (entry : α) : CorrectedBuckets α :=
  let diff := levenshtein_distance proposed_mark (getMark entry)
  if diff = 0 then { corr with identical_marks := corr.identical_marks ++ [entry] }
  else if diff = 1 then { corr with one_letter_marks := corr.one_letter_marks ++ [entry] }
  else if diff = 2 then { corr with two_letter_marks := corr.two_letter_marks ++ [entry] }
  else { corr with similar_marks := corr.similar_marks ++ [entry] }

/-- `ml_utils.consistency_check`: re-file the entries of the
`identical_marks` and `one_two_letter_marks` buckets by edit distance;
the `similar_marks` bucket is copied over unchanged (and further
entries at distance > 2 are appended to it). -/
def consistency_check {α : Type} (getMark : α → String) (proposed_mark : String)
    (classification : Classification α) : CorrectedBuckets α :=
  let corrected : CorrectedBuckets α :=
    { identical_marks := [], one_letter_marks := [], two_letter_marks := [],
      similar_marks := classification.similar_marks }
  let corrected := classification.identical_marks.foldl
    (consistencyStep getMark proposed_mark) corrected
  classification.one_two_letter_marks.foldl (consistencyStep getMark proposed_mark) corrected

/-- One mark entry of a component-analysis result, as a dict whose seven
required keys may be absent (`none`). -/
structure MarkRecord where
  mark : Option String
  owner : Option String
  goods_services : Option String
  status : Option String
  classNo : Option String
  class_match : Option Bool
  goods_services_match : Option Bool
deriving DecidableEq, Repr

/-- One component of a component-analysis result. -/
structure ComponentRecord where
  component : Option String
  marks : Option (List MarkRecord)
  distinctiveness : Option String
deriving DecidableEq, Repr

/-- The crowded-field summary of a component-analysis result. -/
structure CrowdedField where
  total_hits : Option Nat
  distinct_owner_percentage : Option ℚ
  is_crowded : Option Bool
  explanation : Option String
deriving DecidableEq, Repr

/-- A raw component-analysis result (a well-typed dict whose keys may be
absent). -/
structure ComponentResults where
  identified_coordinated_classes : Option (List Nat)
  coordinated_classes_explanation : Option String
  components : Option (List ComponentRecord)
  crowded_field : Option CrowdedField
deriving DecidableEq, Repr

/-- The inner loop body of `ml_utils.component_consistency_check` over
one mark entry: each of the seven required fields, when absent, is set
to its default (`False` for the two match booleans, `"Unknown"` for the
strings), in the source's field order. -/
def repairMarkEntry (m : MarkRecord) : MarkRecord :=
  let m := if m.mark = Option.none then { m with mark := some "Unknown" } else m
  let m := if m.owner = Option.none then { m with owner := some "Unknown" } else m
  let m := if m.goods_services = Option.none then
    { m with goods_services := some "Unknown" } else m
  let m := if m.status = Option.none then { m with status := some "Unknown" } else m
  let m := if m.classNo = Option.none then { m with classNo := some "Unknown" } else m
  let m := if m.class_match = Option.none then { m with class_match := some false } else m
  let m := if m.goods_services_match = Option.none then
    { m with goods_services_match := some false } else m
  m

/-- The outer loop body of `ml_utils.component_consistency_check` over
one component (with its index `i` from `enumerate`). -/
def repairComponent (i : Nat) (component : ComponentRecord) : ComponentRecord :=
  let component := if component.component = Option.none then
    { component with component := some ("Component " ++ toString (i + 1)) } else component
  let component := if component.marks = Option.none then
    { component with marks := some [] } else component
  let component := if component.distinctiveness = Option.none then
    { component with distinctiveness := some "DESCRIPTIVE" } else component
  { component with marks := some ((component.marks.getD []).map repairMarkEntry) }

/-- `ml_utils.component_consistency_check`: repair missing fields of a
component-analysis result in place (a total function — the Python pass
raises no `KeyError` on well-typed input, which the `Option` model makes
explicit).  Follows the source's write order field by field. -/
def component_consistency_check (results : ComponentResults) : ComponentResults :=
  let corrected := results
  let corrected := if corrected.identified_coordinated_classes = Option.none then
    { corrected with identified_coordinated_classes := some [] } else corrected
  let corrected := if corrected.coordinated_classes_explanation = Option.none then
    { corrected with coordinated_classes_explanation := some "No coordinated classes identified" }
    else corrected
  let corrected := if corrected.components = Option.none then
    { corrected with components := some [] } else corrected
  let comps := (corrected.components.getD []).enum.map (fun p => repairComponent p.1 p.2)
  let corrected := { corrected with components := some comps }
  match corrected.crowded_field with
  | Option.none =>
    let defaults : CrowdedField :=
      { total_hits := some 0, distinct_owner_percentage := some 0, is_crowded := some false,
        explanation := some "Unable to determine crowded field status" }
    { corrected with crowded_field := some defaults }
  | some cf =>
    let cf := if cf.total_hits = Option.none then { cf with total_hits := some 0 } else cf
    let cf := if cf.distinct_owner_percentage = Option.none then
      { cf with distinct_owner_percentage := some 0 } else cf
    let cf := if cf.is_crowded = Option.none then { cf with is_crowded := some false } else cf
    let cf := if cf.explanation = Option.none then
      { cf with explanation := some "Unable to determine crowded field status" } else cf
    { corrected with crowded_field := some cf }

/-- The fallback strategies of
`enhanced_phonetic_service.get_prominent_element`. -/
inductive ProminentStrategy where
  | last
  | first
  | longest
deriving DecidableEq, Repr

/-- `re.findall(r"\w+", s)`: the nonempty maximal word runs of `s`. -/
def wordTokens (s : String) : List String :=
  ((wordRuns s.toList).filter (fun r => r ≠ [])).map String.mk

/-- Python `max(tokens, key=len)`: the first token of maximal length. -/
def pyMaxByLen : List String → String
  | [] => ""
  | t :: ts => ts.foldl (fun best x => if best.length < x.length then x else best) t

/-- `enhanced_phonetic_service.get_prominent_element`: heuristic choice
of the prominent token (last / first / longest), lowercased; a mark with
no word tokens falls back to the lowercased mark itself. -/
def get_prominent_element (mark : String) (strategy : ProminentStrategy) : String :=
  let tokens := wordTokens mark
  match tokens with
  | [] => pyLower mark
  | t :: ts =>
    match strategy with
    | .first => pyLower t
    | .longest => pyLower (pyMaxByLen (t :: ts))
    | .last => pyLower ((t :: ts).getLastD "")

/-- The result dict of `is_prominent_phonetic_match` /
`is_llm_prominent_phonetic_match` (`used_llm` is only set by the LLM
variant and is carried as `false` by the heuristic one). -/
structure ProminentMatchResult where
  is_match : Bool
  prominent_element1 : String
  prominent_element2 : String
  phonetic_code1 : String
  phonetic_code2 : String
  exact_match : Bool
  fuzzy_score : ℚ
  threshold : ℚ
  used_llm : Bool
deriving DecidableEq, Repr

/-- Core of both prominent-match functions, applied to the two already
chosen prominent tokens: Metaphone-encode both, `exact_match` is Python
`code1 and code1 == code2` (false when `code1` is empty), the fuzzy
score is the rapidfuzz ratio of the codes, falling back to the raw
token when its code is empty (`code1 or tok1`). -/
def prominentMatchCore (c : Collab) (tok1 tok2 : String) (threshold : ℚ) :
    Bool × String × String × Bool × ℚ :=
  let code1 := c.metaphone tok1
  let code2 := c.metaphone tok2
  let exact_match := !(code1 == "") && (code1 == code2)
  let fuzzy_score := c.rfRatio (if code1 == "" then tok1 else code1)
    (if code2 == "" then tok2 else code2)
  let is_match := exact_match || decide (threshold ≤ fuzzy_score)
  (is_match, code1, code2, exact_match, fuzzy_score)

/-- `enhanced_phonetic_service.is_prominent_phonetic_match` (heuristic
strategy; default threshold 90 in the source). -/
def is_prominent_phonetic_match (c : Collab) (name1 name2 : String) (threshold : ℚ)
    (strategy : ProminentStrategy) : ProminentMatchResult :=
  let tok1 := get_prominent_element name1 strategy
  let tok2 := get_prominent_element name2 strategy
  let r := prominentMatchCore c tok1 tok2 threshold
  { is_match := r.1, prominent_element1 := tok1, prominent_element2 := tok2,
    phonetic_code1 := r.2.1, phonetic_code2 := r.2.2.1, exact_match := r.2.2.2.1,
    fuzzy_score := r.2.2.2.2, threshold := threshold, used_llm := false }

/-- `enhanced_phonetic_service.is_llm_prominent_phonetic_match`: ask the
LLM oracle (`llm`, modelled as a function that returns `""` on failure,
as `detect_prominent_component_with_llm` does) for each prominent
component; fall back to the heuristic when it returns empty. -/
def is_llm_prominent_phonetic_match (c : Collab) (llm : String → String)
    (name1 name2 : String) (threshold : ℚ) (fallback_strategy : ProminentStrategy) :
    ProminentMatchResult :=
  let key1 := llm name1
  let key2 := llm name2
  let key1 := if key1 == "" then get_prominent_element name1 fallback_strategy else key1
  let key2 := if key2 == "" then get_prominent_element name2 fallback_strategy else key2
  let r := prominentMatchCore c key1 key2 threshold
  { is_match := r.1, prominent_element1 := key1, prominent_element2 := key2,
    phonetic_code1 := r.2.1, phonetic_code2 := r.2.2.1, exact_match := r.2.2.2.1,
    fuzzy_score := r.2.2.2.2, threshold := threshold,
    used_llm := !(key1 == "") && !(key2 == "") }

/-- The stop-word list of the `normalize_text` nested in
`validation.is_similar_goods_services` (unlike
`text_processing.normalize_text`, it does not contain `"shampoos"`, so
the subsequent `shampoos → hair` replacement is live there). -/
def validation_common_words : List String :=
  ["class", "care", "in", "and", "the", "for", "with", "from", "to",
   "under", "using", "of", "no", "include", "ex", "example", "classes",
   "search", "scope", "shower", "products"]

/-- Character-list core of the `normalize_text` nested in
`validation.is_similar_goods_services`. -/
def validationNormalizeChars (l : List Char) : List Char :=
  let t1 := l.map foldHyphenChar
  let t2 := t1.map punctToSpaceChar
  let t3 := t2.map lowerChar
  let t4 := mapWordRuns dropDigitRun t3
  let t5 := validation_common_words.foldl (fun t w => mapWordRuns (dropWordRun w.toList) t) t4
  let t6 := mapWordRuns replaceShampoosRun t5
  joinSpace (pySplitChars t6)

/-- The `normalize_text` nested in `validation.is_similar_goods_services`. -/
def validation_normalize_text (s : String) : String :=
  String.mk (validationNormalizeChars s.toList)

/-- `validation.is_similar_goods_services` (default threshold 0.65):
semantic similarity of the normalized descriptions, with a lemmatized
shared-word fallback. -/
def is_similar_goods_services (c : Collab) (existing_goods proposed_goods : String) : Bool :=
  let existing_normalized := validation_normalize_text existing_goods
  let proposed_normalized := validation_normalize_text proposed_goods
  if mkRat 65 100 ≤ c.cosSim existing_normalized proposed_normalized then true
  else
    let existing_words := (pySplit existing_normalized).map c.lemmatize
    let proposed_words := (pySplit proposed_normalized).map c.lemmatize
    existing_words.any (fun w => proposed_words.contains w)

/-- The stop-word set of the keyword-overlap check nested in
`validation.validate_trademark_relevance`. -/
def validation_stop_words : List String :=
  ["and", "or", "the", "a", "an", "in", "on", "for", "of", "to", "with"]

/-- The `is_similar_goods_services` nested inside
`validation.validate_trademark_relevance`: exact match, mutual
containment, or more than 30% overlap of distinct non-stop-word
keywords. -/
def keywordSimilarGoodsServices (existing_goods proposed_goods : String) : Bool :=
  let existing_lower := pyLower existing_goods
  let proposed_lower := pyLower proposed_goods
  if existing_lower == proposed_lower then true
  else if pyContains proposed_lower existing_lower || pyContains existing_lower proposed_lower then
    true
  else
    let existing_keywords :=
      ((wordTokens existing_lower).dedup).filter (fun w => !(validation_stop_words.contains w))
    let proposed_keywords :=
      ((wordTokens proposed_lower).dedup).filter (fun w => !(validation_stop_words.contains w))
    if 0 < existing_keywords.length ∧ 0 < proposed_keywords.length then
      let overlap := (existing_keywords.filter (fun w => proposed_keywords.contains w)).length
      decide (mkRat 3 10 <
        (overlap : ℚ) / (min existing_keywords.length proposed_keywords.length : ℚ))
    else false

namespace validation

/-- `validation.validate_trademark_relevance`, restricted to the
list-typed input of the claim (the string-parsing branch of the source
is out of scope here).  Conflicts are abstract entries `α`; the
projection `goodsServices` models `conflict.get`: `none` models a dict
without the `"goods_services"` key.  Returns the retained conflicts and
the excluded count. -/
def validate_trademark_relevance {α : Type} (goodsServices : α → Option String)
    (conflicts : List α) (proposed_goods_services : String) : List α × Nat :=
  conflicts.foldl (fun acc conflict =>
    match goodsServices conflict with
    | some gs =>
      if keywordSimilarGoodsServices gs proposed_goods_services then (acc.1 ++ [conflict], acc.2)
      else (acc.1, acc.2 + 1)
    | Option.none => (acc.1 ++ [conflict], acc.2)) ([], 0)

end validation

namespace comparison_service

/-- `comparison_service.validate_trademark_relevance`, restricted to the
list-typed input of the claim; identical loop to the `validation`
version but delegating to `validation.is_similar_goods_services`
(which consults the embedding collaborator). -/
def validate_trademark_relevance {α : Type} (c : Collab) (goodsServices : α → Option String)
    (conflicts : List α) (proposed_goods_services : String) : List α × Nat :=
  conflicts.foldl (fun acc conflict =>
    match goodsServices conflict with
    | some gs =>
      if is_similar_goods_services c gs proposed_goods_services then (acc.1 ++ [conflict], acc.2)
      else (acc.1, acc.2 + 1)
    | Option.none => (acc.1 ++ [conflict], acc.2)) ([], 0)

end comparison_service

/-!
## Proof infrastructure

Invariant predicates used by the idempotence proof of `normalize_text`,
and concrete fixtures used by witness and counterexample theorems.
-/

/-- The character-level invariant of normalized text: each character is a
word character, a whitespace character or a hyphen, and is fixed by
lowercasing. -/
def allowedChar (c : Char) : Prop :=
  (isWordChar c = true ∨ isSpaceChar c = true ∨ c = '-') ∧ lowerChar c = c

/-- A word run on which all three run-level passes of `normalize_text`
are the identity. -/
def GoodRun (r : List Char) : Prop :=
  dropDigitRun r = r ∧ (∀ w ∈ words_to_remove, dropWordRun w.toList r = r) ∧
    replaceShampoosRun r = r

/-- A concrete collaborator bundle for witness evaluation (the external
services are modelled by constant functions). -/
def testCollab : Collab :=
  { cosSim := fun _ _ => 0, fwRatio := fun _ _ => 0, fwPartRatio := fun _ _ => 0,
    rfRatio := fun _ _ => 0, metaphone := fun s => s, lemmatize := fun s => s }

def deadMark : ExistingTrademark :=
  { trademark_name := "ColorGrip", status := " CANCELLED ", owner := "O",
    international_class_number := [3], serial_number := "11", registration_number := "22",
    goods_services := "hair color", design_phrase := "No Design phrase presented in document" }

def liveMark : ExistingTrademark := { deadMark with status := "Registered" }

def sampleClassification : Classification String :=
  { identical_marks := ["Acmme"], one_two_letter_marks := ["Akkme"], similar_marks := ["Zebra"] }

def sampleConflicts : List (Option String × Nat) :=
  [(some "hair color", 1), (some "unrelated machinery", 2), (Option.none, 3)]

def c7Collab : Collab := { testCollab with fwPartRatio := fun _ _ => 80 }

def c7Mark : ExistingTrademark :=
  { liveMark with trademark_name := "ab", international_class_number := [25] }

def c8Collab : Collab := { testCollab with metaphone := fun _ => "" }

/-!
## Theorems

The idempotence lemma stack for `normalize_text` (claim C6), then one
theorem per claim, with witness theorems for the claims whose statements
carry hypotheses.
-/

/-! ### Idempotence of `normalize_text` (claim C6): character-level lemmas -/

theorem char_toNat_ofNat_valid (n : Nat) (h : Nat.isValidChar n) : (Char.ofNat n).toNat = n := by
  simp only [Char.ofNat, h, dite_true, Char.ofNatAux, Char.toNat, UInt32.toNat]
  simp

theorem lowerChar_toNat_upper (c : Char) (h1 : 65 ≤ c.toNat) (h2 : c.toNat ≤ 90) :
    (lowerChar c).toNat = c.toNat + 32 := by
  unfold lowerChar
  rw [if_pos ⟨h1, h2⟩]
  exact char_toNat_ofNat_valid _ (Or.inl (by omega))

theorem lowerChar_lowerChar (c : Char) : lowerChar (lowerChar c) = lowerChar c := by
  by_cases h : 65 ≤ c.toNat ∧ c.toNat ≤ 90
  · have ht := lowerChar_toNat_upper c h.1 h.2
    unfold lowerChar
    rw [if_pos h]
    rw [if_neg]
    rw [show Char.ofNat (c.toNat + 32) = lowerChar c from by unfold lowerChar; rw [if_pos h]]
    rw [ht]
    omega
  · unfold lowerChar
    rw [if_neg h, if_neg h]

theorem isWordChar_lowerChar (c : Char) (h : isWordChar c = true) :
    isWordChar (lowerChar c) = true := by
  by_cases hc : 65 ≤ c.toNat ∧ c.toNat ≤ 90
  · unfold lowerChar
    rw [if_pos hc]
    obtain ⟨h1, h2⟩ := hc
    set n := c.toNat with hn
    clear_value n
    interval_cases n <;> decide
  · unfold lowerChar
    rw [if_neg hc]
    exact h

theorem lowerChar_of_space (c : Char) (h : isSpaceChar c = true) : lowerChar c = c := by
  simp only [isSpaceChar, Bool.or_eq_true, decide_eq_true_eq] at h
  rcases h with ((((h | h) | h) | h) | h) | h <;> subst h <;> decide

theorem isSpaceChar_not_word (c : Char) (h : isSpaceChar c = true) : isWordChar c = false := by
  simp only [isSpaceChar, Bool.or_eq_true, decide_eq_true_eq] at h
  rcases h with ((((h | h) | h) | h) | h) | h <;> subst h <;> decide

theorem allowedChar_space : allowedChar ' ' := by
  constructor
  · right; left; decide
  · decide

theorem foldHyphenChar_allowed (c : Char) (h : allowedChar c) : foldHyphenChar c = c := by
  unfold foldHyphenChar
  rw [if_neg]
  intro hc
  simp only [Bool.or_eq_true, decide_eq_true_eq] at hc
  rcases hc with (h1 | h1) | h1 <;> subst h1 <;> exact absurd h.1 (by decide)

theorem punctToSpaceChar_class (d : Char) :
    isWordChar (punctToSpaceChar d) = true ∨ isSpaceChar (punctToSpaceChar d) = true ∨
      punctToSpaceChar d = '-' := by
  unfold punctToSpaceChar
  by_cases hd : (isWordChar d || isSpaceChar d || d = '-') = true
  · rw [if_neg (by simp [hd])]
    simp only [Bool.or_eq_true, decide_eq_true_eq] at hd
    rcases hd with (h | h) | h
    · exact Or.inl h
    · exact Or.inr (Or.inl h)
    · exact Or.inr (Or.inr h)
  · rw [if_pos (by simp_all)]
    exact Or.inr (Or.inl (by decide))

theorem punctToSpaceChar_allowed (c : Char) (h : allowedChar c) : punctToSpaceChar c = c := by
  unfold punctToSpaceChar
  rw [if_neg]
  simp only [Bool.not_eq_true', Bool.or_eq_false_iff, Bool.not_eq_true, decide_eq_false_iff_not]
  intro hfalse
  rcases h.1 with hw | hs | hd
  · simp [hw] at hfalse
  · simp [hs] at hfalse
  · simp [hd] at hfalse

theorem allowedChar_of_lower (d : Char)
    (h : isWordChar d = true ∨ isSpaceChar d = true ∨ d = '-') :
    allowedChar (lowerChar d) := by
  refine ⟨?_, lowerChar_lowerChar d⟩
  rcases h with hw | hs | hd
  · exact Or.inl (isWordChar_lowerChar d hw)
  · rw [lowerChar_of_space d hs]
    exact Or.inr (Or.inl hs)
  · subst hd
    right; right; decide

theorem map_fix {α : Type} (f : α → α) (l : List α) (h : ∀ c ∈ l, f c = c) :
    l.map f = l := by
  induction l with
  | nil => rfl
  | cons a l ih =>
    rw [List.map_cons, h a (List.mem_cons_self a l), ih (fun c hc => h c (List.mem_cons_of_mem a hc))]

/-! ### Word-run machinery -/

theorem wordRunsAux_cons_word (c : Char) (hc : isWordChar c = true) (cs acc : List Char) :
    wordRunsAux acc (c :: cs) = wordRunsAux (c :: acc) cs := by
  simp only [wordRunsAux]
  rw [if_pos hc]

theorem wordRunsAux_cons_nonword (c : Char) (hc : isWordChar c = false) (cs acc : List Char) :
    wordRunsAux acc (c :: cs) = acc.reverse :: wordRunsAux [] cs := by
  simp only [wordRunsAux]
  rw [if_neg (by simp [hc])]

theorem mapWordRunsAux_cons_word (f : List Char → List Char) (c : Char)
    (hc : isWordChar c = true) (cs acc : List Char) :
    mapWordRunsAux f acc (c :: cs) = mapWordRunsAux f (c :: acc) cs := by
  simp only [mapWordRunsAux]
  rw [if_pos hc]

theorem mapWordRunsAux_cons_nonword (f : List Char → List Char) (c : Char)
    (hc : isWordChar c = false) (cs acc : List Char) :
    mapWordRunsAux f acc (c :: cs) = f acc.reverse ++ c :: mapWordRunsAux f [] cs := by
  simp only [mapWordRunsAux]
  rw [if_neg (by simp [hc])]

theorem wordRunsAux_append_nonword (c : Char) (hc : isWordChar c = false) (b : List Char) :
    ∀ (a acc : List Char),
      wordRunsAux acc (a ++ c :: b) = wordRunsAux acc a ++ wordRunsAux [] b := by
  intro a
  induction a with
  | nil =>
    intro acc
    rw [List.nil_append, wordRunsAux_cons_nonword c hc]
    simp [wordRunsAux]
  | cons x xs ih =>
    intro acc
    by_cases hx : isWordChar x = true
    · rw [List.cons_append, wordRunsAux_cons_word x hx, wordRunsAux_cons_word x hx]
      exact ih (x :: acc)
    · rw [List.cons_append, wordRunsAux_cons_nonword x (Bool.eq_false_iff.mpr hx),
        wordRunsAux_cons_nonword x (Bool.eq_false_iff.mpr hx), ih []]
      simp

theorem wordRunsAux_allWord (l : List Char) (h : ∀ x ∈ l, isWordChar x = true) :
    ∀ acc : List Char, wordRunsAux acc l = [acc.reverse ++ l] := by
  induction l with
  | nil => intro acc; simp [wordRunsAux]
  | cons x xs ih =>
    intro acc
    rw [wordRunsAux_cons_word x (h x (List.mem_cons_self x xs)),
      ih (fun y hy => h y (List.mem_cons_of_mem x hy)) (x :: acc)]
    simp

theorem mem_wordRunsAux_word (l : List Char) :
    ∀ (acc r : List Char), (∀ x ∈ acc, isWordChar x = true) → r ∈ wordRunsAux acc l →
      ∀ x ∈ r, isWordChar x = true := by
  induction l with
  | nil =>
    intro acc r hacc hr
    simp only [wordRunsAux, List.mem_singleton] at hr
    subst hr
    intro x hx
    exact hacc x (List.mem_reverse.mp hx)
  | cons c cs ih =>
    intro acc r hacc hr
    by_cases hc : isWordChar c = true
    · rw [wordRunsAux_cons_word c hc] at hr
      refine ih (c :: acc) r ?_ hr
      intro x hx
      rcases List.mem_cons.mp hx with h | h
      · subst h; exact hc
      · exact hacc x h
    · rw [wordRunsAux_cons_nonword c (Bool.eq_false_iff.mpr hc)] at hr
      rcases List.mem_cons.mp hr with h | h
      · subst h
        intro x hx
        exact hacc x (List.mem_reverse.mp hx)
      · exact ih [] r (by simp) h

theorem mapWordRunsAux_id (f : List Char → List Char) (l : List Char) :
    ∀ acc : List Char, (∀ r ∈ wordRunsAux acc l, f r = r) →
      mapWordRunsAux f acc l = acc.reverse ++ l := by
  induction l with
  | nil =>
    intro acc h
    simp only [mapWordRunsAux]
    rw [h acc.reverse (by simp [wordRunsAux])]
    simp
  | cons c cs ih =>
    intro acc h
    by_cases hc : isWordChar c = true
    · rw [wordRunsAux_cons_word c hc] at h
      rw [mapWordRunsAux_cons_word f c hc, ih (c :: acc) h]
      simp
    · rw [wordRunsAux_cons_nonword c (Bool.eq_false_iff.mpr hc)] at h
      rw [mapWordRunsAux_cons_nonword f c (Bool.eq_false_iff.mpr hc),
        h acc.reverse (List.mem_cons_self _ _),
        ih [] (fun r hr => h r (List.mem_cons_of_mem _ hr))]
      simp

theorem wordRuns_mapWordRunsAux (f : List Char → List Char) (l : List Char) :
    ∀ acc : List Char, (∀ r ∈ wordRunsAux acc l, ∀ x ∈ f r, isWordChar x = true) →
      wordRunsAux [] (mapWordRunsAux f acc l) = (wordRunsAux acc l).map f := by
  induction l with
  | nil =>
    intro acc h
    simp only [mapWordRunsAux, wordRunsAux, List.map_cons, List.map_nil]
    rw [wordRunsAux_allWord _ (h acc.reverse (by simp [wordRunsAux])) []]
    simp
  | cons c cs ih =>
    intro acc h
    by_cases hc : isWordChar c = true
    · rw [wordRunsAux_cons_word c hc] at h ⊢
      rw [mapWordRunsAux_cons_word f c hc]
      exact ih (c :: acc) h
    · have hc' : isWordChar c = false := Bool.eq_false_iff.mpr hc
      rw [wordRunsAux_cons_nonword c hc'] at h ⊢
      rw [mapWordRunsAux_cons_nonword f c hc',
        wordRunsAux_append_nonword c hc' _ (f acc.reverse) [],
        wordRunsAux_allWord _ (h acc.reverse (List.mem_cons_self _ _)) [],
        ih [] (fun r hr => h r (List.mem_cons_of_mem _ hr))]
      simp

theorem mem_mapWordRunsAux_of (P : Char → Prop) (f : List Char → List Char)
    (hf : ∀ r : List Char, (∀ x ∈ r, P x) → ∀ x ∈ f r, P x) (l : List Char) :
    ∀ acc : List Char, (∀ x ∈ acc, P x) → (∀ x ∈ l, P x) →
      ∀ x ∈ mapWordRunsAux f acc l, P x := by
  induction l with
  | nil =>
    intro acc hacc _ x hx
    simp only [mapWordRunsAux] at hx
    exact hf acc.reverse (fun y hy => hacc y (List.mem_reverse.mp hy)) x hx
  | cons c cs ih =>
    intro acc hacc hl x hx
    by_cases hc : isWordChar c = true
    · rw [mapWordRunsAux_cons_word f c hc] at hx
      refine ih (c :: acc) ?_ (fun y hy => hl y (List.mem_cons_of_mem c hy)) x hx
      intro y hy
      rcases List.mem_cons.mp hy with h | h
      · subst h; exact hl y (List.mem_cons_self y cs)
      · exact hacc y h
    · rw [mapWordRunsAux_cons_nonword f c (Bool.eq_false_iff.mpr hc)] at hx
      rcases List.mem_append.mp hx with h | h
      · exact hf acc.reverse (fun y hy => hacc y (List.mem_reverse.mp hy)) x h
      · rcases List.mem_cons.mp h with h | h
        · subst h; exact hl x (List.mem_cons_self x cs)
        · exact ih [] (by simp) (fun y hy => hl y (List.mem_cons_of_mem c hy)) x h

/-! ### Split/join machinery -/

theorem pySplitCharsAux_cons_space (c : Char) (hc : isSpaceChar c = true)
    (cs acc : List Char) (hacc : acc ≠ []) :
    pySplitCharsAux acc (c :: cs) = acc.reverse :: pySplitCharsAux [] cs := by
  simp only [pySplitCharsAux]
  rw [if_pos hc, if_neg hacc]

theorem pySplitCharsAux_cons_space_nil (c : Char) (hc : isSpaceChar c = true) (cs : List Char) :
    pySplitCharsAux [] (c :: cs) = pySplitCharsAux [] cs := by
  simp only [pySplitCharsAux]
  rw [if_pos hc]
  simp

theorem pySplitCharsAux_cons_nonspace (c : Char) (hc : isSpaceChar c = false)
    (cs acc : List Char) :
    pySplitCharsAux acc (c :: cs) = pySplitCharsAux (c :: acc) cs := by
  simp only [pySplitCharsAux]
  rw [if_neg (by simp [hc])]

theorem pySplitCharsAux_tokens (l : List Char) :
    ∀ acc : List Char, (∀ x ∈ acc, isSpaceChar x = false) →
      ∀ t ∈ pySplitCharsAux acc l, t ≠ [] ∧ ∀ x ∈ t, isSpaceChar x = false := by
  induction l with
  | nil =>
    intro acc hacc t ht
    simp only [pySplitCharsAux] at ht
    by_cases h : acc = []
    · rw [if_pos h] at ht
      cases ht
    · rw [if_neg h] at ht
      rcases List.mem_singleton.mp ht with rfl
      exact ⟨by simpa using h, fun x hx => hacc x (List.mem_reverse.mp hx)⟩
  | cons c cs ih =>
    intro acc hacc t ht
    by_cases hc : isSpaceChar c = true
    · by_cases h : acc = []
      · subst h
        rw [pySplitCharsAux_cons_space_nil c hc] at ht
        exact ih [] (by simp) t ht
      · rw [pySplitCharsAux_cons_space c hc cs acc h] at ht
        rcases List.mem_cons.mp ht with h' | h'
        · subst h'
          exact ⟨by simpa using h, fun x hx => hacc x (List.mem_reverse.mp hx)⟩
        · exact ih [] (by simp) t h'
    · rw [pySplitCharsAux_cons_nonspace c (Bool.eq_false_iff.mpr hc) cs acc] at ht
      refine ih (c :: acc) ?_ t ht
      intro x hx
      rcases List.mem_cons.mp hx with h' | h'
      · subst h'; exact Bool.eq_false_iff.mpr hc
      · exact hacc x h'

theorem mem_pySplitCharsAux (l : List Char) :
    ∀ (acc t : List Char) (x : Char), t ∈ pySplitCharsAux acc l → x ∈ t →
      x ∈ acc ∨ x ∈ l := by
  induction l with
  | nil =>
    intro acc t x ht hx
    simp only [pySplitCharsAux] at ht
    by_cases h : acc = []
    · rw [if_pos h] at ht; cases ht
    · rw [if_neg h] at ht
      rcases List.mem_singleton.mp ht with rfl
      exact Or.inl (List.mem_reverse.mp hx)
  | cons c cs ih =>
    intro acc t x ht hx
    by_cases hc : isSpaceChar c = true
    · by_cases h : acc = []
      · subst h
        rw [pySplitCharsAux_cons_space_nil c hc] at ht
        rcases ih [] t x ht hx with h' | h'
        · cases h'
        · exact Or.inr (List.mem_cons_of_mem c h')
      · rw [pySplitCharsAux_cons_space c hc cs acc h] at ht
        rcases List.mem_cons.mp ht with h' | h'
        · subst h'
          exact Or.inl (List.mem_reverse.mp hx)
        · rcases ih [] t x h' hx with h'' | h''
          · cases h''
          · exact Or.inr (List.mem_cons_of_mem c h'')
    · rw [pySplitCharsAux_cons_nonspace c (Bool.eq_false_iff.mpr hc) cs acc] at ht
      rcases ih (c :: acc) t x ht hx with h' | h'
      · rcases List.mem_cons.mp h' with h'' | h''
        · subst h''; exact Or.inr (List.mem_cons_self x cs)
        · exact Or.inl h''
      · exact Or.inr (List.mem_cons_of_mem c h')

theorem mem_joinSpace (ts : List (List Char)) (x : Char) (hx : x ∈ joinSpace ts) :
    x = ' ' ∨ ∃ t ∈ ts, x ∈ t := by
  induction ts with
  | nil => cases hx
  | cons t ts ih =>
    cases ts with
    | nil =>
      simp only [joinSpace] at hx
      exact Or.inr ⟨t, List.mem_singleton.mpr rfl, hx⟩
    | cons t2 ts2 =>
      simp only [joinSpace] at hx
      rcases List.mem_append.mp hx with h | h
      · exact Or.inr ⟨t, List.mem_cons_self _ _, h⟩
      · rcases List.mem_cons.mp h with h' | h'
        · exact Or.inl h'
        · rcases ih h' with h'' | ⟨t', ht', hx'⟩
          · exact Or.inl h''
          · exact Or.inr ⟨t', List.mem_cons_of_mem t ht', hx'⟩

theorem pySplitCharsAux_append_nonspace (t : List Char)
    (ht : ∀ x ∈ t, isSpaceChar x = false) :
    ∀ (acc rest : List Char),
      pySplitCharsAux acc (t ++ rest) = pySplitCharsAux (t.reverse ++ acc) rest := by
  induction t with
  | nil => intro acc rest; simp
  | cons x xs ih =>
    intro acc rest
    rw [List.cons_append, pySplitCharsAux_cons_nonspace x (ht x (List.mem_cons_self x xs)),
      ih (fun y hy => ht y (List.mem_cons_of_mem x hy)) (x :: acc)]
    simp

theorem pySplitChars_joinSpace (ts : List (List Char))
    (h : ∀ t ∈ ts, t ≠ [] ∧ ∀ x ∈ t, isSpaceChar x = false) :
    pySplitChars (joinSpace ts) = ts := by
  induction ts with
  | nil => rfl
  | cons t ts ih =>
    obtain ⟨hne, hns⟩ := h t (List.mem_cons_self t ts)
    cases ts with
    | nil =>
      show pySplitCharsAux [] (joinSpace [t]) = [t]
      simp only [joinSpace]
      rw [show t = t ++ [] from by simp, pySplitCharsAux_append_nonspace _ (by simpa using hns)]
      simp only [pySplitCharsAux]
      rw [if_neg (by simp [hne])]
      simp
    | cons t2 ts2 =>
      show pySplitCharsAux [] (joinSpace (t :: t2 :: ts2)) = t :: t2 :: ts2
      simp only [joinSpace]
      rw [pySplitCharsAux_append_nonspace t hns [] (' ' :: joinSpace (t2 :: ts2)),
        pySplitCharsAux_cons_space ' ' (by decide) _ _ (by simp [hne])]
      have := ih (fun t' ht' => h t' (List.mem_cons_of_mem t ht'))
      simp only [pySplitChars] at this
      rw [this]
      simp

theorem mem_wordRuns_joinSpace (ts : List (List Char)) (r : List Char)
    (hr : r ∈ wordRuns (joinSpace ts)) : r = [] ∨ ∃ t ∈ ts, r ∈ wordRuns t := by
  induction ts with
  | nil =>
    simp only [joinSpace, wordRuns, wordRunsAux, List.mem_singleton] at hr
    exact Or.inl hr
  | cons t ts ih =>
    cases ts with
    | nil => exact Or.inr ⟨t, List.mem_singleton.mpr rfl, hr⟩
    | cons t2 ts2 =>
      simp only [joinSpace] at hr
      rw [wordRuns, wordRunsAux_append_nonword ' ' (by decide) _ t []] at hr
      rcases List.mem_append.mp hr with h | h
      · exact Or.inr ⟨t, List.mem_cons_self _ _, h⟩
      · rcases ih h with h' | ⟨t', ht', hr'⟩
        · exact Or.inl h'
        · exact Or.inr ⟨t', List.mem_cons_of_mem t ht', hr'⟩

theorem mem_wordRuns_of_token (l : List Char) :
    ∀ (acc t r : List Char), t ∈ pySplitCharsAux acc l → r ∈ wordRuns t →
      r = [] ∨ r ∈ wordRunsAux [] (acc.reverse ++ l) := by
  induction l with
  | nil =>
    intro acc t r ht hr
    simp only [pySplitCharsAux] at ht
    by_cases h : acc = []
    · rw [if_pos h] at ht; cases ht
    · rw [if_neg h] at ht
      rcases List.mem_singleton.mp ht with rfl
      rw [List.append_nil]
      exact Or.inr hr
  | cons c cs ih =>
    intro acc t r ht hr
    by_cases hc : isSpaceChar c = true
    · have hcw : isWordChar c = false := isSpaceChar_not_word c hc
      by_cases h : acc = []
      · subst h
        rw [pySplitCharsAux_cons_space_nil c hc] at ht
        rcases ih [] t r ht hr with h' | h'
        · exact Or.inl h'
        · simp only [List.reverse_nil, List.nil_append] at h' ⊢
          rw [wordRunsAux_cons_nonword c hcw]
          exact Or.inr (List.mem_cons_of_mem _ h')
      · rw [pySplitCharsAux_cons_space c hc cs acc h] at ht
        rw [wordRunsAux_append_nonword c hcw cs acc.reverse []]
        rcases List.mem_cons.mp ht with h' | h'
        · subst h'
          exact Or.inr (List.mem_append_left _ hr)
        · rcases ih [] t r h' hr with h'' | h''
          · exact Or.inl h''
          · simp only [List.reverse_nil, List.nil_append] at h''
            exact Or.inr (List.mem_append_right _ h'')
    · rw [pySplitCharsAux_cons_nonspace c (Bool.eq_false_iff.mpr hc) cs acc] at ht
      rcases ih (c :: acc) t r ht hr with h' | h'
      · exact Or.inl h'
      · right
        simpa [List.append_assoc] using h'

/-! ### Good runs: the word runs of normalized text are fixed by every
run-level substitution pass -/

theorem goodRun_nil : GoodRun [] := by
  refine ⟨by decide, by decide, by decide⟩

theorem dropDigitRun_idem (r : List Char) : dropDigitRun (dropDigitRun r) = dropDigitRun r := by
  by_cases h : r ≠ [] ∧ r.all Char.isDigit = true
  · unfold dropDigitRun
    rw [if_pos h]
    decide
  · unfold dropDigitRun
    rw [if_neg h, if_neg h]

theorem fold_dropWordRun_nil (ws : List String) (h : ∀ w ∈ ws, w.toList ≠ []) :
    ws.foldl (fun x w => dropWordRun w.toList x) [] = [] := by
  induction ws with
  | nil => rfl
  | cons w ws ih =>
    rw [List.foldl_cons,
      show dropWordRun w.toList [] = [] from by
        unfold dropWordRun
        rw [if_neg (fun he => h w (List.mem_cons_self _ _) he.symm)]]
    exact ih (fun w' hw' => h w' (List.mem_cons_of_mem w hw'))

theorem fold_dropWordRun_spec (ws : List String) (hne : ∀ w ∈ ws, w.toList ≠ [])
    (x : List Char) :
    ws.foldl (fun x w => dropWordRun w.toList x) x = [] ∨
    (ws.foldl (fun x w => dropWordRun w.toList x) x = x ∧ ∀ w ∈ ws, x ≠ w.toList) := by
  induction ws with
  | nil => exact Or.inr ⟨rfl, by simp⟩
  | cons w ws ih =>
    rw [List.foldl_cons]
    by_cases hx : x = w.toList
    · left
      rw [show dropWordRun w.toList x = [] from by unfold dropWordRun; rw [if_pos hx]]
      exact fold_dropWordRun_nil ws (fun w' hw' => hne w' (List.mem_cons_of_mem w hw'))
    · rw [show dropWordRun w.toList x = x from by unfold dropWordRun; rw [if_neg hx]]
      rcases ih (fun w' hw' => hne w' (List.mem_cons_of_mem w hw')) with h | ⟨h1, h2⟩
      · exact Or.inl h
      · refine Or.inr ⟨h1, ?_⟩
        intro w' hw'
        rcases List.mem_cons.mp hw' with h' | h'
        · subst h'; exact hx
        · exact h2 w' h'

theorem pipeline_goodRun (r : List Char) :
    GoodRun (replaceShampoosRun
      (words_to_remove.foldl (fun x w => dropWordRun w.toList x) (dropDigitRun r))) := by
  have hne : ∀ w ∈ words_to_remove, w.toList ≠ [] := by decide
  have hsh : ("shampoos" : String) ∈ words_to_remove := by decide
  rcases fold_dropWordRun_spec words_to_remove hne (dropDigitRun r) with hy | ⟨hy, hall⟩
  · rw [hy, show replaceShampoosRun [] = [] from by decide]
    exact goodRun_nil
  · rw [hy]
    have hnsh : dropDigitRun r ≠ "shampoos".toList := hall _ hsh
    rw [show replaceShampoosRun (dropDigitRun r) = dropDigitRun r from by
      unfold replaceShampoosRun; rw [if_neg hnsh]]
    refine ⟨dropDigitRun_idem r, ?_, ?_⟩
    · intro w hw
      unfold dropWordRun
      rw [if_neg (hall w hw)]
    · unfold replaceShampoosRun
      rw [if_neg hnsh]

theorem run_pass_pres {P : Char → Prop} (f : List Char → List Char)
    (hsub : ∀ r x, x ∈ f r → x ∈ r) :
    ∀ r : List Char, (∀ x ∈ r, P x) → ∀ x ∈ f r, P x :=
  fun r h x hx => h x (hsub r x hx)

theorem dropDigitRun_subset (r : List Char) (x : Char) (hx : x ∈ dropDigitRun r) : x ∈ r := by
  unfold dropDigitRun at hx
  split at hx
  · cases hx
  · exact hx

theorem dropWordRun_subset (w r : List Char) (x : Char) (hx : x ∈ dropWordRun w r) : x ∈ r := by
  unfold dropWordRun at hx
  split at hx
  · cases hx
  · exact hx

theorem replaceShampoosRun_word (r : List Char) (h : ∀ x ∈ r, isWordChar x = true) :
    ∀ x ∈ replaceShampoosRun r, isWordChar x = true := by
  intro x hx
  unfold replaceShampoosRun at hx
  split at hx
  · revert hx
    revert x
    decide
  · exact h x hx

theorem runs_mapWordRuns_dropDigit (l : List Char) :
    wordRunsAux [] (mapWordRuns dropDigitRun l) = (wordRunsAux [] l).map dropDigitRun :=
  wordRuns_mapWordRunsAux dropDigitRun l []
    (fun r hr => run_pass_pres dropDigitRun dropDigitRun_subset r
      (mem_wordRunsAux_word l [] r (by simp) hr))

theorem runs_mapWordRuns_dropWord (w : String) (l : List Char) :
    wordRunsAux [] (mapWordRuns (dropWordRun w.toList) l) =
      (wordRunsAux [] l).map (dropWordRun w.toList) :=
  wordRuns_mapWordRunsAux (dropWordRun w.toList) l []
    (fun r hr => run_pass_pres (dropWordRun w.toList) (dropWordRun_subset w.toList) r
      (mem_wordRunsAux_word l [] r (by simp) hr))

theorem runs_mapWordRuns_replaceShampoos (l : List Char) :
    wordRunsAux [] (mapWordRuns replaceShampoosRun l) =
      (wordRunsAux [] l).map replaceShampoosRun :=
  wordRuns_mapWordRunsAux replaceShampoosRun l []
    (fun r hr => replaceShampoosRun_word r (mem_wordRunsAux_word l [] r (by simp) hr))

theorem runs_fold_stopwords (ws : List String) :
    ∀ l : List Char,
      wordRunsAux [] (ws.foldl (fun t w => mapWordRuns (dropWordRun w.toList) t) l) =
        (wordRunsAux [] l).map (fun r => ws.foldl (fun x w => dropWordRun w.toList x) r) := by
  induction ws with
  | nil =>
    intro l
    simp
  | cons w ws ih =>
    intro l
    rw [List.foldl_cons, ih (mapWordRuns (dropWordRun w.toList) l),
      runs_mapWordRuns_dropWord w l, List.map_map]
    rfl

theorem runs_t6_good (t3 : List Char) :
    ∀ r ∈ wordRunsAux [] (mapWordRuns replaceShampoosRun
      (words_to_remove.foldl (fun t w => mapWordRuns (dropWordRun w.toList) t)
        (mapWordRuns dropDigitRun t3))), GoodRun r := by
  intro r hr
  rw [runs_mapWordRuns_replaceShampoos, runs_fold_stopwords,
    runs_mapWordRuns_dropDigit] at hr
  simp only [List.map_map, List.mem_map, Function.comp] at hr
  obtain ⟨r0, _, rfl⟩ := hr
  exact pipeline_goodRun r0

theorem replaceShampoosRun_pres_allowed (r : List Char) (h : ∀ x ∈ r, allowedChar x) :
    ∀ x ∈ replaceShampoosRun r, allowedChar x := by
  intro x hx
  unfold replaceShampoosRun at hx
  split at hx
  · rw [show ("hair".toList : List Char) = ['h', 'a', 'i', 'r'] from rfl] at hx
    rcases List.mem_cons.mp hx with rfl | hx
    · exact ⟨Or.inl (by decide), by decide⟩
    rcases List.mem_cons.mp hx with rfl | hx
    · exact ⟨Or.inl (by decide), by decide⟩
    rcases List.mem_cons.mp hx with rfl | hx
    · exact ⟨Or.inl (by decide), by decide⟩
    rcases List.mem_cons.mp hx with rfl | hx
    · exact ⟨Or.inl (by decide), by decide⟩
    cases hx
  · exact h x hx

theorem chars_fold_allowed (ws : List String) :
    ∀ l : List Char, (∀ x ∈ l, allowedChar x) →
      ∀ x ∈ ws.foldl (fun t w => mapWordRuns (dropWordRun w.toList) t) l, allowedChar x := by
  induction ws with
  | nil => intro l h; exact h
  | cons w ws ih =>
    intro l h
    rw [List.foldl_cons]
    exact ih _ (mem_mapWordRunsAux_of allowedChar (dropWordRun w.toList)
      (run_pass_pres _ (dropWordRun_subset w.toList)) l [] (by simp) h)

theorem normalizeChars_chars_allowed (l : List Char) :
    ∀ x ∈ normalizeChars l, allowedChar x := by
  intro x hx
  have h3 : ∀ y ∈ (((l.map foldHyphenChar).map punctToSpaceChar).map lowerChar),
      allowedChar y := by
    intro y hy
    rcases List.mem_map.mp hy with ⟨d, hd, rfl⟩
    refine allowedChar_of_lower d ?_
    rcases List.mem_map.mp hd with ⟨e, _, rfl⟩
    exact punctToSpaceChar_class e
  have h4 := mem_mapWordRunsAux_of allowedChar dropDigitRun
    (run_pass_pres _ dropDigitRun_subset) _ [] (by simp) h3
  have h5 := chars_fold_allowed words_to_remove _ h4
  have h6 := mem_mapWordRunsAux_of allowedChar replaceShampoosRun
    replaceShampoosRun_pres_allowed _ [] (by simp) h5
  simp only [normalizeChars] at hx
  rcases mem_joinSpace _ x hx with rfl | ⟨t, ht, hxt⟩
  · exact allowedChar_space
  · rcases mem_pySplitCharsAux _ [] t x ht hxt with h | h
    · cases h
    · exact h6 x h

theorem foldl_fix {α β : Type} (g : β → α → α) (x : α) (ws : List β)
    (h : ∀ w ∈ ws, g w x = x) : ws.foldl (fun t w => g w t) x = x := by
  induction ws with
  | nil => rfl
  | cons w ws ih =>
    rw [List.foldl_cons, h w (List.mem_cons_self w ws)]
    exact ih (fun w' hw' => h w' (List.mem_cons_of_mem w hw'))

theorem joinSplit_idem (m : List Char) :
    pySplitChars (joinSpace (pySplitChars m)) = pySplitChars m :=
  pySplitChars_joinSpace _ (pySplitCharsAux_tokens m [] (by simp))

theorem normalizeChars_runs_good (l : List Char) :
    ∀ r ∈ wordRunsAux [] (normalizeChars l), GoodRun r := by
  intro r hr
  simp only [normalizeChars] at hr
  rcases mem_wordRuns_joinSpace _ r hr with rfl | ⟨t, ht, hrt⟩
  · exact goodRun_nil
  · rcases mem_wordRuns_of_token _ [] t r ht hrt with rfl | h
    · exact goodRun_nil
    · simp only [List.reverse_nil, List.nil_append] at h
      exact runs_t6_good _ r h

theorem normalizeChars_idem (l : List Char) :
    normalizeChars (normalizeChars l) = normalizeChars l := by
  have hallow := normalizeChars_chars_allowed l
  have hruns := normalizeChars_runs_good l
  have hstep : normalizeChars (normalizeChars l) =
      joinSpace (pySplitChars (mapWordRuns replaceShampoosRun
        (words_to_remove.foldl (fun t w => mapWordRuns (dropWordRun w.toList) t)
          (mapWordRuns dropDigitRun
            ((((normalizeChars l).map foldHyphenChar).map punctToSpaceChar).map
              lowerChar))))) := rfl
  rw [hstep,
    map_fix foldHyphenChar _ (fun c hc => foldHyphenChar_allowed c (hallow c hc)),
    map_fix punctToSpaceChar _ (fun c hc => punctToSpaceChar_allowed c (hallow c hc)),
    map_fix lowerChar _ (fun c hc => (hallow c hc).2),
    show mapWordRuns dropDigitRun (normalizeChars l) = normalizeChars l from by
      simpa using mapWordRunsAux_id dropDigitRun _ [] (fun r hr => (hruns r hr).1),
    foldl_fix _ _ words_to_remove (fun w hw => by
      simpa using mapWordRunsAux_id (dropWordRun w.toList) _ []
        (fun r hr => (hruns r hr).2.1 w hw)),
    show mapWordRuns replaceShampoosRun (normalizeChars l) = normalizeChars l from by
      simpa using mapWordRunsAux_id replaceShampoosRun _ []
        (fun r hr => (hruns r hr).2.2)]
  calc joinSpace (pySplitChars (normalizeChars l))
      = joinSpace (pySplitChars (joinSpace (pySplitChars (mapWordRuns replaceShampoosRun
          (words_to_remove.foldl (fun t w => mapWordRuns (dropWordRun w.toList) t)
            (mapWordRuns dropDigitRun
              (((l.map foldHyphenChar).map punctToSpaceChar).map lowerChar))))))) := rfl
    _ = joinSpace (pySplitChars (mapWordRuns replaceShampoosRun
          (words_to_remove.foldl (fun t w => mapWordRuns (dropWordRun w.toList) t)
            (mapWordRuns dropDigitRun
              (((l.map foldHyphenChar).map punctToSpaceChar).map lowerChar))))) := by
        rw [joinSplit_idem]
    _ = normalizeChars l := rfl

/-- Claim C6: the text normalizer is idempotent; normalizing an
already-normalized string returns it unchanged (and, being a pure Lean
function, it has no side effects). -/
theorem normalize_text_idempotent (s : String) :
    normalize_text (normalize_text s) = normalize_text s := by
  have h1 : ∀ t : String, normalize_text t = String.mk (normalizeChars t.toList) :=
    fun t => rfl
  have h2 : ∀ l : List Char, (String.mk l).toList = l := fun l => rfl
  rw [h1 (normalize_text s), h1 s, h2]
  exact congrArg String.mk (normalizeChars_idem s.toList)

/-- Claim C1: for every candidate whose status, after stripping and
lowercasing, contains "cancelled", "abandoned" or "expired", both the
class-overlapping grader `compare_trademarks` and the cross-class
detector `assess_conflict` return conflict grade Low with the
status-override reasoning, regardless of the values of every other
signal (the collaborator functions and all other inputs are universally
quantified). -/
theorem dead_status_forces_low (c : Collab) (existing : ExistingTrademark)
    (pn pc pg : String) (pcs : List Int)
    (hp : parsePyIntList pc = some pcs)
    (hdead : statusIsDead existing.status = true) :
    (compare_trademarks c existing pn pc pg).map
        (fun r => (r.conflict_grade, r.reasoning)) =
      some (ConflictGrade.low, statusOverrideReasoning) ∧
    (assess_conflict c existing pn pc pg).conflict_grade = ConflictGrade.low ∧
    (assess_conflict c existing pn pc pg).reasoning = statusOverrideReasoning := by
  refine ⟨?_, ?_⟩
  · unfold compare_trademarks
    rw [hp]
    simp only [hdead, if_true]
    split_ifs <;> rfl
  · unfold assess_conflict
    simp [hdead]

theorem dead_status_forces_low_witness :
    parsePyIntList "3" = some [3] ∧ statusIsDead deadMark.status = true ∧
    ((compare_trademarks testCollab deadMark "ColorGrip" "3" "hair").map
        (fun r => (r.conflict_grade, r.reasoning)) =
      some (ConflictGrade.low, statusOverrideReasoning) ∧
    (assess_conflict testCollab deadMark "ColorGrip" "3" "hair").conflict_grade =
      ConflictGrade.low ∧
    (assess_conflict testCollab deadMark "ColorGrip" "3" "hair").reasoning =
      statusOverrideReasoning) :=
  ⟨by decide, by decide,
    dead_status_forces_low testCollab deadMark "ColorGrip" "3" "hair" [3]
      (by decide) (by decide)⟩

/-- Claim C2: for every input pair that does not trigger the dead-mark
override, `compare_trademarks` maps the three condition booleans to a
grade by counting one point per true condition (3 points yields High, 2
Moderate, 1 Low, 0 None), exhaustively over all eight combinations; and
the name condition is the disjunction of the five sub-signals. -/
theorem grade_counts_conditions (c : Collab) (existing : ExistingTrademark)
    (pn pc pg : String) (pcs : List Int)
    (hp : parsePyIntList pc = some pcs)
    (hdead : statusIsDead existing.status = false) :
    (compare_trademarks c existing pn pc pg).map ConflictVerdict.conflict_grade =
      some (match (if condition_1 c existing pn then 1 else 0) +
                (if condition_2 existing pcs then 1 else 0) +
                (if condition_3 c existing pg then 1 else 0) with
        | 3 => ConflictGrade.high
        | 2 => ConflictGrade.moderate
        | 1 => ConflictGrade.low
        | _ => ConflictGrade.none) ∧
    condition_1 c existing pn =
      (condition_1A existing pn || condition_1B c existing pn || condition_1C c existing pn ||
        condition_1D c existing pn || condition_1E existing pn) := by
  refine ⟨?_, rfl⟩
  unfold compare_trademarks
  rw [hp]
  simp only [hdead, Bool.false_eq_true, if_false]
  cases h1 : condition_1 c existing pn <;> cases h2 : condition_2 existing pcs <;>
    cases h3 : condition_3 c existing pg <;> simp [h1, h2, h3]

theorem grade_counts_conditions_witness :
    parsePyIntList "3" = some [3] ∧ statusIsDead liveMark.status = false ∧
    ((compare_trademarks testCollab liveMark "ColorGrip" "3" "hair").map
        ConflictVerdict.conflict_grade =
      some (match (if condition_1 testCollab liveMark "ColorGrip" then 1 else 0) +
                (if condition_2 liveMark [3] then 1 else 0) +
                (if condition_3 testCollab liveMark "hair" then 1 else 0) with
        | 3 => ConflictGrade.high
        | 2 => ConflictGrade.moderate
        | 1 => ConflictGrade.low
        | _ => ConflictGrade.none) ∧
    condition_1 testCollab liveMark "ColorGrip" =
      (condition_1A liveMark "ColorGrip" || condition_1B testCollab liveMark "ColorGrip" ||
        condition_1C testCollab liveMark "ColorGrip" ||
        condition_1D testCollab liveMark "ColorGrip" || condition_1E liveMark "ColorGrip")) :=
  ⟨by decide, by decide,
    grade_counts_conditions testCollab liveMark "ColorGrip" "3" "hair" [3]
      (by decide) (by decide)⟩

/-- Counterexample for claim C3: the grading operation
`compare_trademarks` raises (returns `none`, the exception model) on the
unparseable proposed-class string "abc", rather than failing closed. -/
theorem inline_class_parse_raises :
    compare_trademarks testCollab liveMark "x" "abc" "y" = Option.none := by rfl

/-- Claim C3 (amended): the utility parser
`parse_international_class_numbers` tolerates surrounding whitespace,
never raises, and fails closed to the empty list on input with no
digits (the grading operation itself parses with `int()` and raises,
see `inline_class_parse_raises`). -/
theorem tolerant_parser_fails_closed :
    (∀ s : String, parse_international_class_numbers (" " ++ s ++ " ") =
      parse_international_class_numbers s) ∧
    (∀ s : String, (∀ ch ∈ s.toList, ch.isDigit = false ∧ ch ≠ ',') →
      parse_international_class_numbers s = []) ∧
    parse_international_class_numbers " 12 , 34 " = [12, 34] ∧
    parse_international_class_numbers "" = [] := by
  refine ⟨?_, ?_, by decide, by decide⟩
  · intro s
    have h2 : (" " ++ s ++ " ").toList.filter (fun c => c.isDigit || c = ',') =
        s.toList.filter (fun c => c.isDigit || c = ',') := by
      simp [String.toList, String.data_append]
    simp only [parse_international_class_numbers]
    rw [h2]
  · intro s hs
    have h0 : s.toList.filter (fun c => c.isDigit || c = ',') = [] := by
      apply List.filter_eq_nil_iff.mpr
      intro a ha
      have h := hs a ha
      simp [h.1, h.2]
    simp only [parse_international_class_numbers]
    rw [h0]
    rfl

theorem tolerant_parser_fails_closed_witness :
    (∀ ch ∈ ("abc" : String).toList, ch.isDigit = false ∧ ch ≠ ',') ∧
    parse_international_class_numbers "abc" = [] :=
  ⟨by decide, tolerant_parser_fails_closed.2.1 "abc" (by decide)⟩

theorem consistency_foldl_spec {α : Type} (getMark : α → String) (pm : String)
    (entries : List α) (corr : CorrectedBuckets α) :
    entries.foldl (consistencyStep getMark pm) corr =
      { identical_marks := corr.identical_marks ++
          entries.filter (fun e => levenshtein_distance pm (getMark e) == 0),
        one_letter_marks := corr.one_letter_marks ++
          entries.filter (fun e => levenshtein_distance pm (getMark e) == 1),
        two_letter_marks := corr.two_letter_marks ++
          entries.filter (fun e => levenshtein_distance pm (getMark e) == 2),
        similar_marks := corr.similar_marks ++
          entries.filter (fun e => decide (2 < levenshtein_distance pm (getMark e))) } := by
  induction entries generalizing corr with
  | nil => simp
  | cons e es ih =>
    rw [List.foldl_cons, ih]
    unfold consistencyStep
    rcases hd : levenshtein_distance pm (getMark e) with _ | _ | _ | n <;>
      simp [hd, List.filter_cons, List.append_assoc]

/-- Claim C4: `consistency_check` re-files each entry of the
`identical_marks` and `one_two_letter_marks` input buckets by the
Levenshtein distance between the proposed mark and the entry's mark
string (0 to identical, 1 to one-letter, 2 to two-letter, > 2 to
similar), discarding the original bucket, while the input
`similar_marks` bucket is passed through unchanged; the spec's literal
pairs for the edit-distance bucketing also check out. -/
theorem consistency_refiles_by_distance {α : Type} (getMark : α → String) (pm : String)
    (cls : Classification α) :
    ((consistency_check getMark pm cls).identical_marks =
      (cls.identical_marks ++ cls.one_two_letter_marks).filter
        (fun e => levenshtein_distance pm (getMark e) == 0)) ∧
    ((consistency_check getMark pm cls).one_letter_marks =
      (cls.identical_marks ++ cls.one_two_letter_marks).filter
        (fun e => levenshtein_distance pm (getMark e) == 1)) ∧
    ((consistency_check getMark pm cls).two_letter_marks =
      (cls.identical_marks ++ cls.one_two_letter_marks).filter
        (fun e => levenshtein_distance pm (getMark e) == 2)) ∧
    ((consistency_check getMark pm cls).similar_marks =
      cls.similar_marks ++ (cls.identical_marks ++ cls.one_two_letter_marks).filter
        (fun e => decide (2 < levenshtein_distance pm (getMark e)))) ∧
    levenshtein_distance "Acme" "Acme" = 0 ∧ levenshtein_distance "Acme" "Acmme" = 1 ∧
    levenshtein_distance "Acme" "Akme" = 1 ∧ levenshtein_distance "Acme" "Akkme" = 2 := by
  unfold consistency_check
  rw [consistency_foldl_spec, consistency_foldl_spec]
  refine ⟨by simp [List.filter_append], by simp [List.filter_append],
    by simp [List.filter_append], by simp [List.filter_append, List.append_assoc],
    by decide, by decide, by decide, by decide⟩

/-- Claim C5: the buckets produced by `consistency_check` partition the
re-audited entries — an entry drawn from the input identical and
one-or-two-letter buckets lies in a distance bucket exactly when its
edit distance is the bucket's distance (so in exactly one of them), and
only the catch-all similar bucket additionally receives the pass-through
entries and the entries at distance greater than 2. -/
theorem corrected_buckets_partition {α : Type} (getMark : α → String) (pm : String)
    (cls : Classification α) (e : α)
    (he : e ∈ cls.identical_marks ++ cls.one_two_letter_marks) :
    ((e ∈ (consistency_check getMark pm cls).identical_marks ↔
        levenshtein_distance pm (getMark e) = 0) ∧
     (e ∈ (consistency_check getMark pm cls).one_letter_marks ↔
        levenshtein_distance pm (getMark e) = 1) ∧
     (e ∈ (consistency_check getMark pm cls).two_letter_marks ↔
        levenshtein_distance pm (getMark e) = 2) ∧
     (e ∈ (consistency_check getMark pm cls).similar_marks ↔
        2 < levenshtein_distance pm (getMark e) ∨ e ∈ cls.similar_marks)) := by
  have he' := List.mem_append.mp he
  unfold consistency_check
  rw [consistency_foldl_spec, consistency_foldl_spec]
  refine ⟨?_, ?_, ?_, ?_⟩ <;> simp [List.mem_filter, List.mem_append] <;> tauto

theorem corrected_buckets_partition_witness :
    ("Acmme" ∈ sampleClassification.identical_marks ++
      sampleClassification.one_two_letter_marks) ∧
    (("Acmme" ∈ (consistency_check (fun s => s) "Acme" sampleClassification).identical_marks ↔
        levenshtein_distance "Acme" "Acmme" = 0) ∧
     ("Acmme" ∈ (consistency_check (fun s => s) "Acme" sampleClassification).one_letter_marks ↔
        levenshtein_distance "Acme" "Acmme" = 1) ∧
     ("Acmme" ∈ (consistency_check (fun s => s) "Acme" sampleClassification).two_letter_marks ↔
        levenshtein_distance "Acme" "Acmme" = 2) ∧
     ("Acmme" ∈ (consistency_check (fun s => s) "Acme" sampleClassification).similar_marks ↔
        2 < levenshtein_distance "Acme" "Acmme" ∨
          "Acmme" ∈ sampleClassification.similar_marks)) :=
  ⟨by decide,
    corrected_buckets_partition (fun s => s) "Acme" sampleClassification "Acmme" (by decide)⟩

theorem relevance_foldl_spec {α : Type} (simOk : String → Bool) (proj : α → Option String)
    (conflicts : List α) (acc : List α × Nat) :
    conflicts.foldl (fun acc conflict =>
      match proj conflict with
      | some gs => if simOk gs then (acc.1 ++ [conflict], acc.2) else (acc.1, acc.2 + 1)
      | Option.none => (acc.1 ++ [conflict], acc.2)) acc =
    (acc.1 ++ conflicts.filter (fun e =>
        match proj e with
        | some gs => simOk gs
        | Option.none => true),
      acc.2 + (conflicts.filter (fun e =>
        match proj e with
        | some gs => !simOk gs
        | Option.none => false)).length) := by
  induction conflicts generalizing acc with
  | nil => simp
  | cons e es ih =>
    rw [List.foldl_cons, ih]
    cases hp : proj e with
    | none => simp [hp, List.filter_cons, List.append_assoc]
    | some gs =>
      cases hs : simOk gs <;>
        simp [hp, hs, List.filter_cons, List.append_assoc] <;> omega

theorem filter_length_split {α : Type} (p : α → Bool) (l : List α) :
    (l.filter p).length + (l.filter (fun a => !p a)).length = l.length := by
  induction l with
  | nil => simp
  | cons a l ih =>
    cases h : p a <;> simp [List.filter_cons, h] <;> omega

/-- Claim C10: both implementations of `validate_trademark_relevance`
always retain a conflict entry that lacks a "goods_services" key, and
the number of retained conflicts plus the returned excluded count equals
the number of input conflicts. -/
theorem relevance_keeps_unkeyed_and_accounts {α : Type} (c : Collab)
    (proj : α → Option String) (conflicts : List α) (pg : String) :
    (∀ e, e ∈ conflicts → proj e = Option.none →
      e ∈ (comparison_service.validate_trademark_relevance c proj conflicts pg).1 ∧
      e ∈ (validation.validate_trademark_relevance proj conflicts pg).1) ∧
    ((comparison_service.validate_trademark_relevance c proj conflicts pg).1.length +
      (comparison_service.validate_trademark_relevance c proj conflicts pg).2 =
        conflicts.length) ∧
    ((validation.validate_trademark_relevance proj conflicts pg).1.length +
      (validation.validate_trademark_relevance proj conflicts pg).2 = conflicts.length) := by
  unfold comparison_service.validate_trademark_relevance validation.validate_trademark_relevance
  rw [relevance_foldl_spec, relevance_foldl_spec]
  refine ⟨?_, ?_, ?_⟩
  · intro e he hnone
    constructor <;> (simp [List.mem_filter, hnone]; exact he)
  · have h := filter_length_split
      (fun e => match proj e with
        | some gs => is_similar_goods_services c gs pg
        | Option.none => true) conflicts
    have hfun : (fun a => !(match proj a with
        | some gs => is_similar_goods_services c gs pg
        | Option.none => true)) = (fun e : α => match proj e with
        | some gs => !is_similar_goods_services c gs pg
        | Option.none => false) := by
      funext a
      cases proj a <;> rfl
    rw [hfun] at h
    simpa using h
  · have h := filter_length_split
      (fun e => match proj e with
        | some gs => keywordSimilarGoodsServices gs pg
        | Option.none => true) conflicts
    have hfun : (fun a => !(match proj a with
        | some gs => keywordSimilarGoodsServices gs pg
        | Option.none => true)) = (fun e : α => match proj e with
        | some gs => !keywordSimilarGoodsServices gs pg
        | Option.none => false) := by
      funext a
      cases proj a <;> rfl
    rw [hfun] at h
    simpa using h

theorem relevance_keeps_unkeyed_and_accounts_witness :
    (((Option.none, 3) : Option String × Nat) ∈
        (comparison_service.validate_trademark_relevance testCollab Prod.fst sampleConflicts
          "permanent hair color").1 ∧
      ((Option.none, 3) : Option String × Nat) ∈
        (validation.validate_trademark_relevance Prod.fst sampleConflicts
          "permanent hair color").1) ∧
    ((comparison_service.validate_trademark_relevance testCollab Prod.fst sampleConflicts
        "permanent hair color").1.length +
      (comparison_service.validate_trademark_relevance testCollab Prod.fst sampleConflicts
        "permanent hair color").2 = sampleConflicts.length) ∧
    ((validation.validate_trademark_relevance Prod.fst sampleConflicts
        "permanent hair color").1.length +
      (validation.validate_trademark_relevance Prod.fst sampleConflicts
        "permanent hair color").2 = sampleConflicts.length) := by
  have h := relevance_keeps_unkeyed_and_accounts testCollab Prod.fst sampleConflicts
    "permanent hair color"
  exact ⟨h.1 ((Option.none, 3) : Option String × Nat) (by decide) rfl, h.2.1, h.2.2⟩

/-- Claim C7 (code bug): at a concrete input where the partial-ratio
signal of `assess_conflict` holds (fuzzywuzzy `partial_ratio` = 80 ≥ 55)
while the five other signals are false, the status is live, and the
candidate's class set is nonempty and disjoint from the proposed class,
the code returns grade Low instead of the claimed NameMatch: the
boolean flag (named `phonetic_partial_match` in the source) is compared
with `>= 55`, which is always false for a boolean. -/
theorem part_ratio_disjunct_is_dead :
    (assess_conflict c7Collab c7Mark "cd ef" "3" "y").conflict_grade = ConflictGrade.low ∧
    decide (55 ≤ c7Collab.fwPartRatio
      (pyLower (normalize_text_name c7Mark.trademark_name))
      (pyLower (normalize_text_name "cd ef"))) = true ∧
    statusIsDead c7Mark.status = false ∧
    c7Mark.international_class_number.all (fun k => !(([3] : List Int).contains k)) = true ∧
    c7Mark.international_class_number.isEmpty = false := by decide

/-- Counterexample for claim C8: with a Metaphone collaborator that
returns the empty code for the digit-only prominent tokens of "123" and
"45", the two codes are identical yet `is_prominent_phonetic_match`
reports no match (the raw-token fuzzy score is below the threshold),
because `code1 and code1 == code2` is falsy for an empty first code. -/
theorem identical_empty_codes_do_not_match :
    (is_prominent_phonetic_match c8Collab "123" "45" 90 ProminentStrategy.last).phonetic_code1 =
      (is_prominent_phonetic_match c8Collab "123" "45" 90 ProminentStrategy.last).phonetic_code2 ∧
    (is_prominent_phonetic_match c8Collab "123" "45" 90 ProminentStrategy.last).is_match =
      false := by decide

theorem prominentMatchCore_fires (c : Collab) (tok1 tok2 : String) (th : ℚ) :
    ((prominentMatchCore c tok1 tok2 th).2.1 ≠ "" →
      (prominentMatchCore c tok1 tok2 th).2.1 = (prominentMatchCore c tok1 tok2 th).2.2.1 →
      (prominentMatchCore c tok1 tok2 th).1 = true) ∧
    (th ≤ (prominentMatchCore c tok1 tok2 th).2.2.2.2 →
      (prominentMatchCore c tok1 tok2 th).1 = true) := by
  constructor
  · intro h1 h2
    simp only [prominentMatchCore] at h1 h2 ⊢
    rw [Bool.or_eq_true]
    left
    rw [Bool.and_eq_true]
    exact ⟨by simpa using h1, by simpa using h2⟩
  · intro h
    simp only [prominentMatchCore] at h ⊢
    rw [Bool.or_eq_true]
    right
    exact decide_eq_true h

/-- Claim C8 (amended): both `is_prominent_phonetic_match` and
`is_llm_prominent_phonetic_match` report a match whenever the two
Metaphone codes of the chosen prominent tokens are identical and the
first code is non-empty, or whenever the fuzzy score (the
string-similarity ratio between the codes, or between the raw prominent
tokens when a code is empty) meets the threshold. -/
theorem prominent_match_fires_amended (c : Collab) (llm : String → String)
    (n1 n2 : String) (th : ℚ) (strat : ProminentStrategy) :
    ((is_prominent_phonetic_match c n1 n2 th strat).phonetic_code1 ≠ "" →
      (is_prominent_phonetic_match c n1 n2 th strat).phonetic_code1 =
        (is_prominent_phonetic_match c n1 n2 th strat).phonetic_code2 →
      (is_prominent_phonetic_match c n1 n2 th strat).is_match = true) ∧
    (th ≤ (is_prominent_phonetic_match c n1 n2 th strat).fuzzy_score →
      (is_prominent_phonetic_match c n1 n2 th strat).is_match = true) ∧
    ((is_llm_prominent_phonetic_match c llm n1 n2 th strat).phonetic_code1 ≠ "" →
      (is_llm_prominent_phonetic_match c llm n1 n2 th strat).phonetic_code1 =
        (is_llm_prominent_phonetic_match c llm n1 n2 th strat).phonetic_code2 →
      (is_llm_prominent_phonetic_match c llm n1 n2 th strat).is_match = true) ∧
    (th ≤ (is_llm_prominent_phonetic_match c llm n1 n2 th strat).fuzzy_score →
      (is_llm_prominent_phonetic_match c llm n1 n2 th strat).is_match = true) := by
  have h1 := prominentMatchCore_fires c (get_prominent_element n1 strat)
    (get_prominent_element n2 strat) th
  have h2 := prominentMatchCore_fires c
    (if llm n1 == "" then get_prominent_element n1 strat else llm n1)
    (if llm n2 == "" then get_prominent_element n2 strat else llm n2) th
  exact ⟨h1.1, h1.2, h2.1, h2.2⟩

theorem prominent_match_fires_amended_witness :
    ((is_prominent_phonetic_match testCollab "Grip Color" "Matrix Color" 90
        ProminentStrategy.last).phonetic_code1 ≠ "" ∧
      (is_prominent_phonetic_match testCollab "Grip Color" "Matrix Color" 90
        ProminentStrategy.last).phonetic_code1 =
        (is_prominent_phonetic_match testCollab "Grip Color" "Matrix Color" 90
          ProminentStrategy.last).phonetic_code2) ∧
    (is_prominent_phonetic_match testCollab "Grip Color" "Matrix Color" 90
      ProminentStrategy.last).is_match = true ∧
    ((90 : ℚ) ≤ (is_llm_prominent_phonetic_match testCollab (fun _ => "color")
        "Grip Color" "Matrix Color" 90 ProminentStrategy.last).fuzzy_score →
      (is_llm_prominent_phonetic_match testCollab (fun _ => "color")
        "Grip Color" "Matrix Color" 90 ProminentStrategy.last).is_match = true) := by
  have h := prominent_match_fires_amended testCollab (fun _ => "color")
    "Grip Color" "Matrix Color" 90 ProminentStrategy.last
  exact ⟨⟨by decide, by decide⟩, h.1 (by decide) (by decide), h.2.2.2⟩

theorem repairMarkEntry_eq (m : MarkRecord) :
    repairMarkEntry m =
      { mark := some (m.mark.getD "Unknown"), owner := some (m.owner.getD "Unknown"),
        goods_services := some (m.goods_services.getD "Unknown"),
        status := some (m.status.getD "Unknown"), classNo := some (m.classNo.getD "Unknown"),
        class_match := some (m.class_match.getD false),
        goods_services_match := some (m.goods_services_match.getD false) } := by
  obtain ⟨f1, f2, f3, f4, f5, f6, f7⟩ := m
  unfold repairMarkEntry
  cases f1 <;> cases f2 <;> cases f3 <;> cases f4 <;> cases f5 <;> cases f6 <;> cases f7 <;> rfl

theorem repairComponent_eq (i : Nat) (comp : ComponentRecord) :
    repairComponent i comp =
      { component := some (comp.component.getD ("Component " ++ toString (i + 1))),
        marks := some ((comp.marks.getD []).map repairMarkEntry),
        distinctiveness := some (comp.distinctiveness.getD "DESCRIPTIVE") } := by
  obtain ⟨c1, c2, c3⟩ := comp
  unfold repairComponent
  cases c1 <;> cases c2 <;> cases c3 <;> rfl

/-- Claim C9: `component_consistency_check` is a total function on
well-typed component-analysis results (no missing-field exception), and
after it every mark entry has all seven required fields — the two
boolean match flags defaulted to false and the string fields to
"Unknown" when absent — and the crowded-field summary has default
zero/false values when missing, with present values kept unchanged. -/
theorem component_repair_defaults (results : ComponentResults) :
    (component_consistency_check results).components =
      some ((results.components.getD []).enum.map (fun p =>
        { component := some (p.2.component.getD ("Component " ++ toString (p.1 + 1))),
          marks := some ((p.2.marks.getD []).map (fun m =>
            ({ mark := some (m.mark.getD "Unknown"), owner := some (m.owner.getD "Unknown"),
               goods_services := some (m.goods_services.getD "Unknown"),
               status := some (m.status.getD "Unknown"),
               classNo := some (m.classNo.getD "Unknown"),
               class_match := some (m.class_match.getD false),
               goods_services_match := some (m.goods_services_match.getD false) } :
              MarkRecord))),
          distinctiveness := some (p.2.distinctiveness.getD "DESCRIPTIVE") })) ∧
    (component_consistency_check results).crowded_field =
      some { total_hits :=
               some (((results.crowded_field.getD
                 ⟨Option.none, Option.none, Option.none, Option.none⟩).total_hits).getD 0),
             distinct_owner_percentage :=
               some (((results.crowded_field.getD
                 ⟨Option.none, Option.none, Option.none,
                   Option.none⟩).distinct_owner_percentage).getD 0),
             is_crowded :=
               some (((results.crowded_field.getD
                 ⟨Option.none, Option.none, Option.none, Option.none⟩).is_crowded).getD false),
             explanation :=
               some (((results.crowded_field.getD
                 ⟨Option.none, Option.none, Option.none, Option.none⟩).explanation).getD
                   "Unable to determine crowded field status") } := by
  obtain ⟨r1, r2, r3, r4⟩ := results
  constructor
  · cases r1 <;> cases r2 <;> cases r3 <;> rcases r4 with _ | ⟨a, b, c, d⟩ <;>
      simp [component_consistency_check, repairComponent_eq, repairMarkEntry_eq]
  · cases r1 <;> cases r2 <;> cases r3 <;> rcases r4 with _ | ⟨a, b, c, d⟩
    all_goals try (cases a <;> cases b <;> cases c <;> cases d)
    all_goals simp [component_consistency_check]
